import Mathlib

/-!
metamorph: row-wise CSV transformation through a text-generation service

A shallow embedding of `main.go` (producer loop, `doWork`, the `work` struct) and of
`pkg/llm/vertex.go` (`VertexLLM.Generate`), followed by theorems about them.

Modelling conventions.

* A row is a `List String`; the row store `dataRows` is a `List (List String)`.
* The Go type `int` is taken to be 64 bits wide (amd64/arm64); the conversion `int32(i)`
  keeps the low 32 bits, read as a signed number, see `toInt32`.
* A run-time panic (index out of range, nil dereference) ends the whole process.  A state
  carries a flag `panicked`; once it is set no further step changes the state.
* `tmpl.Execute` and `model.Generate` are collaborators: they are parameters of the model.
  `Generate` may depend on and change the state of the service, so it is a state-passing
  function.  `Env` holds collaborators that keep to the contract "a text or an error";
  `doWorkStep` also admits a `Generate` that panics, as the method of `vertex.go` can.
* The mutex makes the read-append-write of one row atomic, and nothing else of an iteration
  touches shared memory except the call of the client.  One loop iteration of `doWork` is one
  atomic step here, taken at the moment of its `Generate` call, and concurrency is the choice
  of the order of these steps: appends to different rows commute, so the row store at the
  end does not depend on when each append happens after its call.
-/

namespace Metamorph

/-! ## Data model -/

/-- The struct `work` of `main.go`: `recordIndex int32`, `rowData []string`. -/
structure work where
  recordIndex : Int
  rowData : List String
deriving DecidableEq, Repr

/-- Go conversion `int32(i)` of an `int`: the low 32 bits, read as a signed number. -/
def toInt32 (i : Int) : Int := (i + 2 ^ 31) % 2 ^ 32 - 2 ^ 31

/-- A Go `map[string]string` as an association list without repeated keys. -/
abbrev GoMap := List (String × String)

/-- Map read `m[k]` with presence information. -/
def GoMap.get? (m : GoMap) (k : String) : Option String := m.lookup k

/-- Map write `m[k] = v`: the old entry for `k`, if any, is replaced. -/
def GoMap.set (m : GoMap) (k v : String) : GoMap := (k, v) :: m.filter (fun p => p.1 != k)

/-- The key built by `fmt.Sprintf("col%d", j+1)` for the loop index `j`. -/
def colKey (j : Nat) : String := "col" ++ toString (j + 1)

/-- The loop `for j, value := range rowToProcess.rowData { data[key] = value }` of `doWork`,
started at index `j` with the map `data`. -/
def bindLoop (data : GoMap) (j : Nat) : List String → GoMap
  | [] => data
  | value :: rest => bindLoop (data.set (colKey j) value) (j + 1) rest

/-- The binding map `data` that `doWork` builds for a unit: `make(map[string]string)` followed
by the loop over `rowData`. -/
def buildData (rowData : List String) : GoMap := bindLoop [] 0 rowData

/-- A `sync.WaitGroup`, with two ghost counters recording how often `Add(1)` and `Done()` were
called.  `Done` on a zero counter would panic in Go; the counter is an integer here and the
theorems show that it never becomes negative. -/
structure WaitGroup where
  counter : Int
  adds : Nat
  dones : Nat
deriving DecidableEq, Repr

/-- The call `wg.Add(1)`. -/
def WaitGroup.Add1 (wg : WaitGroup) : WaitGroup :=
  { wg with counter := wg.counter + 1, adds := wg.adds + 1 }

/-- The call `wg.Done()`. -/
def WaitGroup.Done (wg : WaitGroup) : WaitGroup :=
  { wg with counter := wg.counter - 1, dones := wg.dones + 1 }

/-- The collaborators of `doWork`.  `execute data` is `tmpl.Execute(&promptBuilder, data)`:
the rendered prompt, or the text of the error.  `generate g prompt` is
`model.Generate(ctx, prompt)` on a service in state `g`: the response or the text of the
error, and the next state of the service. -/
structure Env (G : Type) where
  execute : GoMap → Except String String
  generate : G → String → Except String String × G

/-- What the workers share: the row store, the wait group and the generation client.
`generateCalls` is a ghost log of the prompts passed to `Generate`, oldest first. -/
structure State (G : Type) where
  dataRows : List (List String)
  wg : WaitGroup
  client : G
  generateCalls : List String
  panicked : Bool

/-- The index `idx` is a position of a row store with `n` rows: `0 <= idx < n`. -/
def validIndex (n : Nat) (idx : Int) : Prop := 0 ≤ idx ∧ idx.toNat < n

instance (n : Nat) (idx : Int) : Decidable (validIndex n idx) := by
  unfold validIndex
  infer_instance

/-- The statement `dataRows[idx] = append(dataRows[idx], field)`; `none` is the run-time panic
of an index out of range. -/
def appendAt (dataRows : List (List String)) (idx : Int) (field : String) :
    Option (List (List String)) :=
  if 0 ≤ idx then
    match dataRows[idx.toNat]? with
    | some row => some (dataRows.set idx.toNat (row ++ [field]))
    | none => none
  else none

/-- The sequence `rowLocker.Lock(); dataRows[i] = append(dataRows[i], field);
rowLocker.Unlock(); wg.Done()` that ends each of the three paths of `doWork`. -/
def State.appendThenDone {G : Type} (st : State G) (idx : Int) (field : String) : State G :=
  match appendAt st.dataRows idx field with
  | some rows => { st with dataRows := rows, wg := st.wg.Done }
  | none => { st with panicked := true }

/-- One iteration of the loop `for rowToProcess := range workChan` of `doWork`, for a template
whose execution is `execute` and a client whose method `Generate` is `generate`.  The result
`none` of `generate` is a panic inside `Generate`: it ends the process like any other. -/
def doWorkStep {G : Type} (execute : GoMap → Except String String)
    (generate : G → String → Option (Except String String) × G)
    (st : State G) (rowToProcess : work) : State G :=
  if st.panicked then st
  else
    let data := buildData rowToProcess.rowData
    match execute data with
    | .error err => st.appendThenDone rowToProcess.recordIndex ("ERROR: " ++ err)
    | .ok prompt =>
      match generate st.client prompt with
      | (none, g) =>
        { st with client := g, generateCalls := st.generateCalls ++ [prompt], panicked := true }
      | (some (.error err), g) =>
        State.appendThenDone
          { st with client := g, generateCalls := st.generateCalls ++ [prompt] }
          rowToProcess.recordIndex ("ERROR: " ++ err)
      | (some (.ok response), g) =>
        State.appendThenDone
          { st with client := g, generateCalls := st.generateCalls ++ [prompt] }
          rowToProcess.recordIndex response

/-- One iteration of the loop of `doWork` with collaborators that keep to their contract:
`Generate` returns a text or an error. -/
def doWorkUnit {G : Type} (env : Env G) (st : State G) (rowToProcess : work) : State G :=
  doWorkStep env.execute
    (fun g prompt => (some (env.generate g prompt).1, (env.generate g prompt).2))
    st rowToProcess

/-- What one iteration of `doWork` computes before it touches the row store, for a unit with
the fields `rowData` and a client in state `g`: the field to append, the next state of the
client, and the prompts passed to `Generate` (none or one).  It is used to state and prove
the theorems, `doWorkUnit` is the embedding. -/
def unitOutcome {G : Type} (env : Env G) (g : G) (rowData : List String) :
    String × G × List String :=
  match env.execute (buildData rowData) with
  | .error err => ("ERROR: " ++ err, g, [])
  | .ok prompt =>
    match env.generate g prompt with
    | (.error err, g1) => ("ERROR: " ++ err, g1, [prompt])
    | (.ok response, g1) => (response, g1, [prompt])

/-- The workers process the units of `units` one after the other, in this order. -/
def processAll {G : Type} (env : Env G) (st : State G) (units : List work) : State G :=
  units.foldl (doWorkUnit env) st

/-- The producer loop `for i, row := range dataRows { ... work{recordIndex: int32(i),
rowData: row} }` of `main`, started at index `i`: the units it creates, in order. -/
def dispatchFrom (i : Nat) : List (List String) → List work
  | [] => []
  | row :: rest => { recordIndex := toInt32 i, rowData := row } :: dispatchFrom (i + 1) rest

/-- The units created by the producer loop of `main` for the table `dataRows`. -/
def dispatch (dataRows : List (List String)) : List work := dispatchFrom 0 dataRows

/-- The shared state when the workers start: the rows as read, an unused wait group. -/
def State.init {G : Type} (dataRows : List (List String)) (g : G) : State G :=
  { dataRows := dataRows, wg := ⟨0, 0, 0⟩, client := g, generateCalls := [], panicked := false }

/-- The shared state when the producer has dispatched every row and no unit is finished:
`wg.Add(1)` was called once for each row. -/
def State.dispatched {G : Type} (dataRows : List (List String)) (g : G) : State G :=
  { dataRows := dataRows, wg := ⟨dataRows.length, dataRows.length, 0⟩, client := g,
    generateCalls := [], panicked := false }

/-- The table handed to the output stage: the row store, unless the process died. -/
def State.output {G : Type} (st : State G) : Option (List (List String)) :=
  if st.panicked then none else some st.dataRows

/-! ## The producer and the workers as a transition system

`main` runs `wg.Add(1)` and then the send `workChan <- work{...}` for each row; a worker that
has received a unit runs one iteration of the loop of `doWork`.  An interleaving is a list of
actions; `chan` holds the units that were sent and are not yet finished by a worker, and a
worker may finish any of them next. -/

/-- The state of a run: the shared state, the loop variable `i` of the producer (`next`),
whether `wg.Add(1)` has run for row `next` while its send is still to come (`added`), and the
units in flight. -/
structure Sys (G : Type) where
  shared : State G
  next : Nat
  added : Bool
  chan : List work

/-- The steps of a run: the producer calls `wg.Add(1)`; the producer sends the unit of the
current row; a worker finishes the unit at position `n` among those in flight. -/
inductive Action where
  | add
  | send
  | finish (n : Nat)
deriving DecidableEq, Repr

/-- One step of a run; `none` when the action is not enabled.  Nothing is enabled once the
process has panicked, and the producer stops after the last row. -/
def Sys.step {G : Type} (env : Env G) (s : Sys G) : Action → Option (Sys G)
  | .add =>
    if s.shared.panicked = false ∧ s.added = false ∧ s.next < s.shared.dataRows.length then
      some { s with shared := { s.shared with wg := s.shared.wg.Add1 }, added := true }
    else none
  | .send =>
    if s.shared.panicked = false ∧ s.added = true then
      match s.shared.dataRows[s.next]? with
      | some row =>
        some { s with chan := s.chan ++ [{ recordIndex := toInt32 s.next, rowData := row }],
                      next := s.next + 1, added := false }
      | none => none
    else none
  | .finish n =>
    if s.shared.panicked = false then
      match s.chan[n]? with
      | some w => some { s with shared := doWorkUnit env s.shared w, chan := s.chan.eraseIdx n }
      | none => none
    else none

/-- A run: the actions are taken one after the other; `none` when one is not enabled. -/
def Sys.run {G : Type} (env : Env G) : Sys G → List Action → Option (Sys G)
  | s, [] => some s
  | s, a :: rest =>
    match s.step env a with
    | some t => Sys.run env t rest
    | none => none

/-- The state of `main` when the workers have been started and the producer loop begins. -/
def Sys.init {G : Type} (dataRows : List (List String)) (g : G) : Sys G :=
  { shared := State.init dataRows g, next := 0, added := false, chan := [] }

/-- All `M` units are processed: the producer loop is over, no unit is in flight and the
process is alive. -/
def Sys.allProcessed {G : Type} (s : Sys G) : Prop :=
  s.next = s.shared.dataRows.length ∧ s.added = false ∧ s.chan = [] ∧ s.shared.panicked = false

/-- The invariant of the runs on a table of `M` rows: the row store keeps its length; the
counter of the wait group is the number of `Add(1)` minus the number of `Done()`; `Add(1)` was
called once for each unit sent and once more when a send is pending; the producer stays within
the table; every unit sent is in flight or was finished with one `Done()`, except the one unit
on which the process panicked. -/
def Sys.Inv {G : Type} (M : Nat) (s : Sys G) : Prop :=
  s.shared.dataRows.length = M ∧
  s.shared.wg.counter = (s.shared.wg.adds : Int) - (s.shared.wg.dones : Int) ∧
  s.shared.wg.adds = s.next + (if s.added then 1 else 0) ∧
  s.next + (if s.added then 1 else 0) ≤ M ∧
  s.shared.wg.dones + s.chan.length + (if s.shared.panicked then 1 else 0) = s.next

/-- The schedule of a single worker that keeps up with the producer: for each of `M` rows,
`wg.Add(1)`, the send, and the worker finishing that unit. -/
def sequentialSchedule : Nat → List Action
  | 0 => []
  | M + 1 => sequentialSchedule M ++ [Action.add, Action.send, Action.finish 0]

/-! ## The generation client of `pkg/llm/vertex.go`

The types of `google.golang.org/genai` are not part of the repository; they are declared here
with the fields that `Generate` reads.  A Go pointer is an `Option` (`none` is `nil`). -/

/-- The type `genai.Part`, field `Text`. -/
structure Part where
  Text : String
deriving DecidableEq, Repr

/-- The type `genai.Content`, field `Parts []*Part`. -/
structure Content where
  Parts : List (Option Part)
deriving DecidableEq, Repr

/-- The type `genai.Candidate`, field `Content *Content`. -/
structure Candidate where
  Content : Option Content
deriving DecidableEq, Repr

/-- The type `genai.GenerateContentResponse`, field `Candidates []*Candidate`. -/
structure GenerateContentResponse where
  Candidates : List (Option Candidate)
deriving DecidableEq, Repr

/-- The method `VertexLLM.Generate`.  `generateContent prompt` is the call
`v.client.Models.GenerateContent(ctx, "gemini-2.0-flash", genai.Text(prompt), nil)`.
The result is `some (.ok text)` for `return text, nil`, `some (.error msg)` for
`return "", err`, and `none` for a run-time panic in
`resp.Candidates[0].Content.Parts[0].Text`. -/
def VertexLLM.Generate (generateContent : String → Except String GenerateContentResponse)
    (prompt : String) : Option (Except String String) :=
  match generateContent prompt with
  | .error err => some (.error err)
  | .ok resp =>
    match resp.Candidates[0]? with
    | none => none
    | some none => none
    | some (some candidate) =>
      match candidate.Content with
      | none => none
      | some content =>
        match content.Parts[0]? with
        | none => none
        | some none => none
        | some (some part) => some (.ok part.Text)

/-- The client of `vertex.go` as the collaborator of `doWork`, for a service that answers the
prompt `p` with `generateContent p`. -/
def vertexGenerate (generateContent : String → Except String GenerateContentResponse) :
    Unit → String → Option (Except String String) × Unit :=
  fun g prompt => (VertexLLM.Generate generateContent prompt, g)

/-! ## Templates

`text/template` belongs to the Go standard library, not to the repository.  The model below
follows the documentation of the library for a template executed against a
`map[string]string`: a field action `{{.name}}` looks the name up as a key of the map, and
what happens for an absent key is set by the option `missingkey`.  Every other action of a
template (a pipeline, a function call, a control structure) is taken as given, by what it
writes or the error it stops with. -/

/-- A node of a parsed template: literal text, the action `{{.name}}`, or another action,
given by its run on the map: the text it writes, or the error that ends the execution. -/
inductive Node where
  | text (s : String)
  | field (name : String)
  | action (run : GoMap → Except String String)

/-- The node is literal text or a field action. -/
def Node.isPlain : Node → Bool
  | .text _ => true
  | .field _ => true
  | .action _ => false

/-- The option `missingkey` of a template.  `template.New("prompt").Parse(...)` as called by
`main` sets no option, which leaves `default`. -/
inductive MissingKey where
  | default
  | zero
  | error
deriving DecidableEq, Repr

/-- The text written for the action `{{.name}}` on the map `data`.  For an absent key the
library documents: with the default (`missingkey=default`, the same as `invalid`) execution
continues and what is printed is the string `<no value>`; with `missingkey=zero` the value is
the zero value of the element type, for `string` the empty string; with `missingkey=error`
execution stops with an error (its text is given without the position that the library puts
in front). -/
def evalField (opt : MissingKey) (data : GoMap) (name : String) : Except String String :=
  match data.get? name with
  | some v => .ok v
  | none =>
    match opt with
    | .default => .ok "<no value>"
    | .zero => .ok ""
    | .error => .error ("map has no entry for key " ++ name.quote)

/-- Execution of the nodes of a template in order, the output so far being `out`; the first
error ends the execution. -/
def execNodes (opt : MissingKey) (data : GoMap) (out : String) : List Node →
    Except String String
  | [] => .ok out
  | .text s :: rest => execNodes opt data (out ++ s) rest
  | .field name :: rest =>
    match evalField opt data name with
    | .ok v => execNodes opt data (out ++ v) rest
    | .error err => .error err
  | .action run :: rest =>
    match run data with
    | .ok v => execNodes opt data (out ++ v) rest
    | .error err => .error err

/-- The call `tmpl.Execute(&promptBuilder, data)` followed by `promptBuilder.String()`, for
a template with the nodes `tmpl` and the option `opt`. -/
def Execute (opt : MissingKey) (tmpl : List Node) (data : GoMap) : Except String String :=
  execNodes opt data "" tmpl

/-- The collaborators of a run whose template has the nodes `tmpl`, parsed as `main` does. -/
def templateEnv {G : Type} (tmpl : List Node)
    (generate : G → String → Except String String × G) : Env G :=
  { execute := Execute MissingKey.default tmpl, generate := generate }

/-- A deterministic stub of the generation client: the outcome depends on the prompt only. -/
def stubEnv (render : GoMap → Except String String) (gen : String → Except String String) :
    Env Unit :=
  { execute := render, generate := fun _ prompt => (gen prompt, ()) }

/-! ## The scenarios of the specification -/

/-- The template `"Say hi to {{.col1}} who is {{.col2}}"`, parsed. -/
def sayHiTemplate : List Node :=
  [Node.text "Say hi to ", Node.field "col1", Node.text " who is ", Node.field "col2"]

/-- The template with a client stub that returns `"Hi Alice, 30!"` for any prompt. -/
def aliceEnv : Env Unit :=
  templateEnv sayHiTemplate (fun _ _ => (Except.ok "Hi Alice, 30!", ()))

/-- The template with a client stub that always fails with `"quota exceeded"`. -/
def quotaEnv : Env Unit :=
  templateEnv sayHiTemplate (fun _ _ => (Except.error "quota exceeded", ()))

/-- The unit of the one data row `["Alice","30"]`. -/
def aliceUnit : work := { recordIndex := 0, rowData := ["Alice", "30"] }

/-- A table with `2^31 + 1` data rows of one field each. -/
def hugeTable : List (List String) := List.replicate (2 ^ 31 + 1) ["x"]

/-- A deterministic stub whose rendering needs the second column: it fails on a row with one
field.  The client answers `"re: "` followed by the prompt. -/
def pickyEnv : Env Unit :=
  stubEnv
    (fun data =>
      match data.get? "col2" with
      | some v => Except.ok ("ask " ++ v)
      | none => Except.error "no col2")
    (fun prompt => Except.ok ("re: " ++ prompt))

/-! ## Binding maps -/

theorem toDigitsCore_eq (fuel : Nat) : ∀ (n : Nat) (acc : List Char), n < fuel → 0 < n →
    Nat.toDigitsCore 10 fuel n acc = ((Nat.digits 10 n).map Nat.digitChar).reverse ++ acc := by
  induction fuel with
  | zero => intro n acc h; omega
  | succ f ih =>
    intro n acc hlt hpos
    rw [Nat.digits_def' (by norm_num) hpos]
    simp only [Nat.toDigitsCore]
    by_cases h0 : n / 10 = 0
    · simp [h0]
    · simp only [h0, if_false]
      rw [ih (n / 10) _ (by omega) (by omega)]
      simp

theorem digitChar_inj : ∀ a < 10, ∀ b < 10, Nat.digitChar a = Nat.digitChar b → a = b := by
  decide

theorem map_digitChar_inj : ∀ (l₁ l₂ : List Nat), (∀ d ∈ l₁, d < 10) → (∀ d ∈ l₂, d < 10) →
    l₁.map Nat.digitChar = l₂.map Nat.digitChar → l₁ = l₂
  | [], [], _, _, _ => rfl
  | [], _ :: _, _, _, h => by simp at h
  | _ :: _, [], _, _, h => by simp at h
  | a :: l₁, b :: l₂, h₁, h₂, h => by
    simp only [List.map_cons, List.cons.injEq] at h
    have hab := digitChar_inj a (h₁ a (by simp)) b (h₂ b (by simp)) h.1
    have := map_digitChar_inj l₁ l₂ (fun d hd => h₁ d (by simp [hd]))
      (fun d hd => h₂ d (by simp [hd])) h.2
    rw [hab, this]

theorem toString_succ_inj (a b : Nat) (h : toString (a + 1) = toString (b + 1)) : a = b := by
  have h1 : Nat.toDigits 10 (a + 1) = Nat.toDigits 10 (b + 1) := by
    have := congrArg String.data h
    simpa [toString, Nat.repr, List.asString] using this
  unfold Nat.toDigits at h1
  rw [toDigitsCore_eq _ _ _ (by omega) (by omega), toDigitsCore_eq _ _ _ (by omega) (by omega)]
    at h1
  simp only [List.append_nil, List.reverse_inj] at h1
  have h2 := map_digitChar_inj _ _ (fun d hd => Nat.digits_lt_base (by norm_num) hd)
    (fun d hd => Nat.digits_lt_base (by norm_num) hd) h1
  have := Nat.digits.injective 10 h2
  omega

theorem colKey_inj (a b : Nat) (h : colKey a = colKey b) : a = b := by
  apply toString_succ_inj
  have := congrArg String.data h
  simp only [colKey, String.data_append, List.append_cancel_left_eq] at this
  exact String.ext this

theorem lookup_filter_ne (k x : String) (hx : x ≠ k) : ∀ m : GoMap,
    List.lookup x (m.filter (fun p => p.1 != k)) = List.lookup x m
  | [] => rfl
  | (a, b) :: m => by
    by_cases ha : a = k
    · have hxk : (x == k) = false := by simpa using hx
      subst ha
      simp [List.filter_cons, List.lookup_cons, hxk, lookup_filter_ne a x hx m]
    · simp [List.filter_cons, ha, List.lookup_cons, lookup_filter_ne k x hx m]

theorem GoMap.get?_set (m : GoMap) (k v x : String) :
    (m.set k v).get? x = if x = k then some v else m.get? x := by
  unfold GoMap.set GoMap.get?
  by_cases hx : x = k
  · simp [hx, List.lookup_cons]
  · have hxk : (x == k) = false := by simpa using hx
    simp only [List.lookup_cons, hx, if_false, hxk]
    exact lookup_filter_ne k x hx m

theorem filter_ne_of_get?_none (k : String) : ∀ m : GoMap, GoMap.get? m k = none →
    m.filter (fun p => p.1 != k) = m
  | [], _ => rfl
  | (a, b) :: m, h => by
    unfold GoMap.get? at h
    rw [List.lookup_cons] at h
    by_cases hka : k == a
    · simp [hka] at h
    · simp only [hka] at h
      have hak : a ≠ k := fun e => hka (by simp [e])
      simp [List.filter_cons, hak, filter_ne_of_get?_none k m h]

/-- The loop adds the pairs of the remaining fields in front of the map, newest first, when
none of the keys still to be written is in the map. -/
theorem bindLoop_eq : ∀ (rest : List String) (data : GoMap) (j : Nat),
    (∀ i, j ≤ i → data.get? (colKey i) = none) →
    bindLoop data j rest =
      ((rest.enumFrom j).map (fun p => (colKey p.1, p.2))).reverse ++ data
  | [], data, j, _ => by simp [bindLoop]
  | value :: rest, data, j, h => by
    have hset : data.set (colKey j) value = (colKey j, value) :: data := by
      unfold GoMap.set
      rw [filter_ne_of_get?_none _ _ (h j le_rfl)]
    rw [bindLoop, bindLoop_eq rest _ (j + 1), hset]
    · simp [List.enumFrom_cons]
    · intro i hi
      rw [GoMap.get?_set, if_neg, h i (by omega)]
      intro e
      have := colKey_inj _ _ e
      omega

theorem buildData_eq (rowData : List String) :
    buildData rowData = (rowData.enum.map (fun p => (colKey p.1, p.2))).reverse := by
  unfold buildData
  rw [bindLoop_eq rowData [] 0 (fun _ _ => rfl)]
  simp [List.enum]

theorem bindLoop_get?_other : ∀ (rest : List String) (data : GoMap) (j : Nat) (k : String),
    (∀ t, t < rest.length → k ≠ colKey (j + t)) →
    (bindLoop data j rest).get? k = data.get? k
  | [], _, _, _, _ => rfl
  | value :: rest, data, j, k, h => by
    rw [bindLoop, bindLoop_get?_other rest _ (j + 1) k, GoMap.get?_set, if_neg]
    · exact h 0 (by simp)
    · intro t ht
      have := h (t + 1) (by simpa using ht)
      rwa [show j + 1 + t = j + (t + 1) by omega]

theorem bindLoop_get?_colKey : ∀ (rest : List String) (data : GoMap) (j t : Nat),
    t < rest.length → (bindLoop data j rest).get? (colKey (j + t)) = rest[t]?
  | [], _, _, _, h => by simp at h
  | value :: rest, data, j, 0, _ => by
    rw [bindLoop, bindLoop_get?_other, GoMap.get?_set]
    · simp
    · intro t _ e
      have := colKey_inj _ _ e
      omega
  | value :: rest, data, j, t + 1, h => by
    rw [bindLoop, show j + (t + 1) = j + 1 + t by omega,
      bindLoop_get?_colKey rest _ (j + 1) t (by simpa using h)]
    simp

theorem buildData_get?_colKey (rowData : List String) (j : Nat) :
    (buildData rowData).get? (colKey j) = rowData[j]? := by
  unfold buildData
  by_cases hj : j < rowData.length
  · have := bindLoop_get?_colKey rowData [] 0 j hj
    simpa using this
  · rw [bindLoop_get?_other, List.getElem?_eq_none (not_lt.mp hj)]
    · rfl
    · intro t ht e
      have := colKey_inj _ _ e
      omega

theorem buildData_get?_isSome (rowData : List String) (key : String)
    (h : ((buildData rowData).get? key).isSome) : ∃ j, j < rowData.length ∧ key = colKey j := by
  by_contra hne
  push_neg at hne
  have : (buildData rowData).get? key = none := by
    unfold buildData
    rw [bindLoop_get?_other]
    · rfl
    · intro t ht
      simpa using hne t ht
  simp [this] at h

/-- C4 (binding contract).  For a unit with the fields `rowData`, the map that `doWork` builds
has as many entries as the row has fields, no key twice, its keys are exactly `col1` .. `coln`,
the key `colJ` holds the field at offset `J-1`, no key `colK` with `K > n` is bound (so a field
appended to the row store is never bound: the map is built from the `rowData` of the unit), and
the row `["a","b","c"]` gives `col1 = a, col2 = b, col3 = c` and nothing else. -/
theorem binding_contract (rowData : List String) :
    (buildData rowData).length = rowData.length ∧
    ((buildData rowData).map Prod.fst).Nodup ∧
    (∀ key : String, ((buildData rowData).get? key).isSome ↔
      ∃ J, 1 ≤ J ∧ J ≤ rowData.length ∧ key = "col" ++ toString J) ∧
    (∀ J, 1 ≤ J → J ≤ rowData.length →
      (buildData rowData).get? ("col" ++ toString J) = rowData[J - 1]?) ∧
    (∀ K, rowData.length < K → (buildData rowData).get? ("col" ++ toString K) = none) ∧
    (∀ key : String, (buildData ["a", "b", "c"]).get? key =
      if key = "col1" then some "a" else if key = "col2" then some "b"
      else if key = "col3" then some "c" else none) := by
  have hkey : ∀ J, 1 ≤ J → "col" ++ toString J = colKey (J - 1) := by
    intro J hJ
    unfold colKey
    rw [Nat.sub_add_cancel hJ]
  refine ⟨?_, ?_, ?_, ?_, ?_, ?_⟩
  · simp [buildData_eq]
  · rw [buildData_eq, List.map_reverse, List.nodup_reverse, List.map_map]
    have : (rowData.enum.map (Prod.fst ∘ fun p => (colKey p.1, p.2))) =
        (List.range rowData.length).map colKey := by
      rw [← List.enum_map_fst, List.map_map]
      rfl
    rw [this]
    exact (List.nodup_range _).map (fun a b h => colKey_inj a b h)
  · intro key
    constructor
    · intro h
      obtain ⟨j, hj, rfl⟩ := buildData_get?_isSome rowData key h
      exact ⟨j + 1, by omega, by omega, rfl⟩
    · rintro ⟨J, h1, h2, rfl⟩
      rw [hkey J h1, buildData_get?_colKey, List.getElem?_eq_getElem (by omega)]
      rfl
  · intro J h1 _
    rw [hkey J h1, buildData_get?_colKey]
  · intro K hK
    rw [hkey K (by omega), buildData_get?_colKey, List.getElem?_eq_none (by omega)]
  · intro key
    by_cases h1 : key = "col1"
    · subst h1; rfl
    · by_cases h2 : key = "col2"
      · subst h2; rfl
      · by_cases h3 : key = "col3"
        · subst h3; rfl
        · simp only [h1, h2, h3, if_false]
          have hb1 : (key == "col1") = false := by simpa using h1
          have hb2 : (key == "col2") = false := by simpa using h2
          have hb3 : (key == "col3") = false := by simpa using h3
          have : buildData ["a", "b", "c"] = [("col3", "c"), ("col2", "b"), ("col1", "a")] := by
            decide
          simp [this, GoMap.get?, List.lookup_cons, hb1, hb2, hb3]

/-! ## One iteration of `doWork` -/

theorem appendAt_of_get {dataRows : List (List String)} {idx : Int} {row : List String}
    (field : String) (hidx : 0 ≤ idx) (hrow : dataRows[idx.toNat]? = some row) :
    appendAt dataRows idx field = some (dataRows.set idx.toNat (row ++ [field])) := by
  simp [appendAt, hidx, hrow]

theorem appendAt_length {dataRows rows : List (List String)} {idx : Int} {field : String}
    (h : appendAt dataRows idx field = some rows) : rows.length = dataRows.length := by
  unfold appendAt at h
  split at h
  · split at h
    · simp only [Option.some.injEq] at h
      simp [← h]
    · simp at h
  · simp at h

theorem appendAt_isSome_iff (dataRows : List (List String)) (idx : Int) (field : String) :
    (appendAt dataRows idx field).isSome ↔ (0 ≤ idx ∧ idx.toNat < dataRows.length) := by
  unfold appendAt
  by_cases h : 0 ≤ idx
  · simp only [h, if_true, true_and]
    by_cases hl : idx.toNat < dataRows.length
    · simp [List.getElem?_eq_getElem hl, hl]
    · simp [List.getElem?_eq_none (not_lt.mp hl), hl]
  · simp [h]

theorem doWorkUnit_eq {G : Type} (env : Env G) (st : State G) (w : work)
    (halive : st.panicked = false) :
    doWorkUnit env st w =
      State.appendThenDone
        { st with client := (unitOutcome env st.client w.rowData).2.1,
                  generateCalls := st.generateCalls ++ (unitOutcome env st.client w.rowData).2.2 }
        w.recordIndex (unitOutcome env st.client w.rowData).1 := by
  obtain ⟨rows, wg, g, calls, p⟩ := st
  simp only at halive
  subst halive
  unfold doWorkUnit doWorkStep unitOutcome
  simp only [Bool.false_eq_true, if_false]
  cases hexec : env.execute (buildData w.rowData) with
  | error err => simp
  | ok prompt =>
    simp only
    rcases hgen : env.generate g prompt with ⟨res, g1⟩
    cases res <;> simp

theorem doWorkUnit_panicked {G : Type} (env : Env G) (st : State G) (w : work)
    (h : st.panicked = true) : doWorkUnit env st w = st := by
  simp [doWorkUnit, doWorkStep, h]

theorem appendThenDone_of_get {G : Type} (st : State G) {idx : Int} {row : List String}
    (field : String) (hidx : 0 ≤ idx) (hrow : st.dataRows[idx.toNat]? = some row) :
    st.appendThenDone idx field =
      { st with dataRows := st.dataRows.set idx.toNat (row ++ [field]), wg := st.wg.Done } := by
  simp [State.appendThenDone, appendAt_of_get field hidx hrow]

theorem appendThenDone_of_invalid {G : Type} (st : State G) {idx : Int} (field : String)
    (h : ¬ (0 ≤ idx ∧ idx.toNat < st.dataRows.length)) :
    st.appendThenDone idx field = { st with panicked := true } := by
  have : appendAt st.dataRows idx field = none := by
    have := appendAt_isSome_iff st.dataRows idx field
    cases hq : appendAt st.dataRows idx field with
    | none => rfl
    | some r => rw [hq] at this; exact absurd (this.mp rfl) h
  simp [State.appendThenDone, this]

/-- One iteration on a live state and a valid index: the row at the index gets the field of
`unitOutcome`, the wait group one `Done`, the client and the log move on. -/
theorem doWorkUnit_of_get {G : Type} (env : Env G) (st : State G) (w : work)
    {row : List String} (halive : st.panicked = false) (hidx : 0 ≤ w.recordIndex)
    (hrow : st.dataRows[w.recordIndex.toNat]? = some row) :
    doWorkUnit env st w =
      { dataRows := st.dataRows.set w.recordIndex.toNat
          (row ++ [(unitOutcome env st.client w.rowData).1]),
        wg := st.wg.Done,
        client := (unitOutcome env st.client w.rowData).2.1,
        generateCalls := st.generateCalls ++ (unitOutcome env st.client w.rowData).2.2,
        panicked := false } := by
  rw [doWorkUnit_eq env st w halive, appendThenDone_of_get _ _ hidx (by simpa using hrow)]
  simp [halive]

/-- One iteration on a live state and an index outside the row store: the process panics,
after the call of `Generate` if rendering succeeded. -/
theorem doWorkUnit_of_invalid {G : Type} (env : Env G) (st : State G) (w : work)
    (halive : st.panicked = false)
    (h : ¬ (0 ≤ w.recordIndex ∧ w.recordIndex.toNat < st.dataRows.length)) :
    doWorkUnit env st w =
      { st with client := (unitOutcome env st.client w.rowData).2.1,
                generateCalls := st.generateCalls ++ (unitOutcome env st.client w.rowData).2.2,
                panicked := true } := by
  rw [doWorkUnit_eq env st w halive, appendThenDone_of_invalid _ _ (by simpa using h)]

theorem doWorkUnit_length {G : Type} (env : Env G) (st : State G) (w : work) :
    (doWorkUnit env st w).dataRows.length = st.dataRows.length := by
  cases hp : st.panicked with
  | true => rw [doWorkUnit_panicked env st w hp]
  | false =>
    by_cases h : 0 ≤ w.recordIndex ∧ w.recordIndex.toNat < st.dataRows.length
    · rw [doWorkUnit_of_get env st w hp h.1 (List.getElem?_eq_getElem h.2)]
      simp
    · rw [doWorkUnit_of_invalid env st w hp h]

theorem unitOutcome_field {G : Type} (env : Env G) (g : G) (rowData : List String) :
    (unitOutcome env g rowData).1 =
      match env.execute (buildData rowData) with
      | .error err => "ERROR: " ++ err
      | .ok prompt =>
        match (env.generate g prompt).1 with
        | .error err => "ERROR: " ++ err
        | .ok text => text := by
  unfold unitOutcome
  cases env.execute (buildData rowData) with
  | error err => rfl
  | ok prompt =>
    simp only
    rcases hgen : env.generate g prompt with ⟨res, g1⟩
    cases res <;> rfl

theorem unitOutcome_calls {G : Type} (env : Env G) (g : G) (rowData : List String) :
    (unitOutcome env g rowData).2.2 =
      match env.execute (buildData rowData) with
      | .error _ => []
      | .ok prompt => [prompt] := by
  unfold unitOutcome
  cases env.execute (buildData rowData) with
  | error err => rfl
  | ok prompt =>
    simp only
    rcases hgen : env.generate g prompt with ⟨res, g1⟩
    cases res <;> rfl

theorem unitOutcome_client {G : Type} (env : Env G) (g : G) (rowData : List String) :
    (unitOutcome env g rowData).2.1 =
      match env.execute (buildData rowData) with
      | .error _ => g
      | .ok prompt => (env.generate g prompt).2 := by
  unfold unitOutcome
  cases env.execute (buildData rowData) with
  | error err => rfl
  | ok prompt =>
    simp only
    rcases hgen : env.generate g prompt with ⟨res, g1⟩
    cases res <;> rfl

/-- C3 (errors are converted into data).  For a unit whose index is a position of the row
store (of a live process), one iteration of `doWork` does not panic and appends exactly one
field to the row at that index: the text returned by `Generate` when rendering and generation
succeed, `"ERROR: "` followed by the message of the error when rendering fails, and the same
when generation fails. -/
theorem errors_become_data {G : Type} (env : Env G) (st : State G) (w : work)
    (row : List String) (halive : st.panicked = false) (hidx : 0 ≤ w.recordIndex)
    (hrow : st.dataRows[w.recordIndex.toNat]? = some row) :
    (doWorkUnit env st w).panicked = false ∧
    (doWorkUnit env st w).dataRows[w.recordIndex.toNat]? =
      some (row ++ [match env.execute (buildData w.rowData) with
                    | .error err => "ERROR: " ++ err
                    | .ok prompt =>
                      match (env.generate st.client prompt).1 with
                      | .error err => "ERROR: " ++ err
                      | .ok text => text]) := by
  have hlt : w.recordIndex.toNat < st.dataRows.length := by
    by_contra hc
    rw [List.getElem?_eq_none (not_lt.mp hc)] at hrow
    simp at hrow
  rw [doWorkUnit_of_get env st w halive hidx hrow, ← unitOutcome_field]
  simp [hlt]

theorem errors_become_data_witness :
    (doWorkUnit aliceEnv (State.dispatched [["Alice", "30"]] ()) aliceUnit).dataRows[0]? =
      some ["Alice", "30", "Hi Alice, 30!"] ∧
    (doWorkUnit quotaEnv (State.dispatched [["Alice", "30"]] ()) aliceUnit).dataRows[0]? =
      some ["Alice", "30", "ERROR: quota exceeded"] :=
  ⟨(errors_become_data aliceEnv (State.dispatched [["Alice", "30"]] ()) aliceUnit
      ["Alice", "30"] rfl (by decide) rfl).2,
   (errors_become_data quotaEnv (State.dispatched [["Alice", "30"]] ()) aliceUnit
      ["Alice", "30"] rfl (by decide) rfl).2⟩

/-! ## Batches and the calls of the client -/

theorem processAll_nil {G : Type} (env : Env G) (st : State G) : processAll env st [] = st := rfl

theorem processAll_cons {G : Type} (env : Env G) (st : State G) (w : work) (units : List work) :
    processAll env st (w :: units) = processAll env (doWorkUnit env st w) units := rfl

theorem processAll_panicked {G : Type} (env : Env G) (units : List work) :
    ∀ st : State G, st.panicked = true → processAll env st units = st := by
  induction units with
  | nil => intro st _; rfl
  | cons w units ih =>
    intro st h
    rw [processAll_cons, doWorkUnit_panicked env st w h, ih st h]

theorem processAll_length {G : Type} (env : Env G) (units : List work) :
    ∀ st : State G, (processAll env st units).dataRows.length = st.dataRows.length := by
  induction units with
  | nil => intro st; rfl
  | cons w units ih =>
    intro st
    rw [processAll_cons, ih, doWorkUnit_length]

/-- A batch that ends alive was alive after its first unit. -/
theorem alive_of_processAll_alive {G : Type} (env : Env G) (units : List work) (st : State G)
    (h : (processAll env st units).panicked = false) : st.panicked = false := by
  cases hp : st.panicked with
  | false => rfl
  | true => rw [processAll_panicked env units st hp, hp] at h; exact h

theorem doWorkUnit_calls {G : Type} (env : Env G) (st : State G) (w : work)
    (halive : st.panicked = false) :
    (doWorkUnit env st w).generateCalls =
      st.generateCalls ++ (unitOutcome env st.client w.rowData).2.2 := by
  by_cases h : 0 ≤ w.recordIndex ∧ w.recordIndex.toNat < st.dataRows.length
  · rw [doWorkUnit_of_get env st w halive h.1 (List.getElem?_eq_getElem h.2)]
  · rw [doWorkUnit_of_invalid env st w halive h]

theorem doWorkUnit_client {G : Type} (env : Env G) (st : State G) (w : work)
    (halive : st.panicked = false) :
    (doWorkUnit env st w).client = (unitOutcome env st.client w.rowData).2.1 := by
  by_cases h : 0 ≤ w.recordIndex ∧ w.recordIndex.toNat < st.dataRows.length
  · rw [doWorkUnit_of_get env st w halive h.1 (List.getElem?_eq_getElem h.2)]
  · rw [doWorkUnit_of_invalid env st w halive h]

theorem processAll_calls {G : Type} (env : Env G) (units : List work) :
    ∀ st : State G, (processAll env st units).panicked = false →
      (processAll env st units).generateCalls =
        st.generateCalls ++
          units.filterMap (fun u => (env.execute (buildData u.rowData)).toOption) := by
  induction units with
  | nil => intro st _; simp [processAll_nil]
  | cons w units ih =>
    intro st h
    rw [processAll_cons] at h ⊢
    have h1 := alive_of_processAll_alive env units _ h
    have h0 : st.panicked = false := by
      cases hp : st.panicked with
      | false => rfl
      | true => rw [doWorkUnit_panicked env st w hp, hp] at h1; exact h1
    rw [ih _ h, doWorkUnit_calls env st w h0, unitOutcome_calls, List.filterMap_cons]
    cases env.execute (buildData w.rowData) <;> simp [Except.toOption]

/-- C2 (positional correctness).  The field appended for a unit is fixed by the `rowData` of
the unit (with the template, the client and the state of the client): it is the same whatever
the row store holds and whatever the index is.  For a unit whose index is a position of the
row store, one iteration of `doWork` does not panic, keeps the number of rows, leaves every
other row as it was, and turns the row at the index into the old row followed by that one
field. -/
theorem positional_correctness {G : Type} (env : Env G) (g : G) (rowData : List String) :
    ∃ field : String, ∀ (idx : Int) (st : State G) (row : List String),
      st.client = g → st.panicked = false → 0 ≤ idx → st.dataRows[idx.toNat]? = some row →
      (doWorkUnit env st ⟨idx, rowData⟩).panicked = false ∧
      (doWorkUnit env st ⟨idx, rowData⟩).dataRows.length = st.dataRows.length ∧
      (∀ j, j ≠ idx.toNat →
        (doWorkUnit env st ⟨idx, rowData⟩).dataRows[j]? = st.dataRows[j]?) ∧
      (doWorkUnit env st ⟨idx, rowData⟩).dataRows[idx.toNat]? = some (row ++ [field]) := by
  refine ⟨(unitOutcome env g rowData).1, ?_⟩
  intro idx st row hg halive hidx hrow
  have hlt : idx.toNat < st.dataRows.length := by
    by_contra hc
    rw [List.getElem?_eq_none (not_lt.mp hc)] at hrow
    simp at hrow
  subst hg
  rw [doWorkUnit_of_get env st ⟨idx, rowData⟩ halive hidx hrow]
  refine ⟨rfl, by simp, ?_, by simp [hlt]⟩
  intro j hj
  simp only
  rw [List.getElem?_set_ne (Ne.symm hj)]

theorem positional_correctness_witness :
    ∃ field : String,
      (doWorkUnit aliceEnv (State.dispatched [["Bob", "7"], ["Alice", "30"]] ())
        ⟨1, ["Alice", "30"]⟩).dataRows[0]? = some ["Bob", "7"] ∧
      (doWorkUnit aliceEnv (State.dispatched [["Bob", "7"], ["Alice", "30"]] ())
        ⟨1, ["Alice", "30"]⟩).dataRows[1]? = some (["Alice", "30"] ++ [field]) ∧
      (doWorkUnit aliceEnv (State.dispatched [["Alice", "30"], ["Eve", "x", "y"]] ())
        ⟨0, ["Alice", "30"]⟩).dataRows[0]? = some (["Alice", "30"] ++ [field]) := by
  obtain ⟨field, h⟩ := positional_correctness aliceEnv () ["Alice", "30"]
  have h1 := h 1 (State.dispatched [["Bob", "7"], ["Alice", "30"]] ()) ["Alice", "30"]
    rfl rfl (by decide) rfl
  have h2 := h 0 (State.dispatched [["Alice", "30"], ["Eve", "x", "y"]] ()) ["Alice", "30"]
    rfl rfl (by decide) rfl
  exact ⟨field, h1.2.2.1 0 (by decide), h1.2.2.2, h2.2.2.2⟩

/-- C7 (no generation after a failed rendering, one call after a successful one).  On a live
process, for every unit: when rendering fails, `Generate` is not called (the log of calls and
the client are unchanged) and, the index being a position of the row store, the error marker
is appended at the index and the wait group gets its `Done`; when rendering succeeds,
`Generate` is called once, with the rendered prompt.  Over a batch that the process survives,
the prompts passed to `Generate` are the prompts of the units whose rendering succeeds, in the
order of processing, so their number is the number of successfully rendered rows. -/
theorem generate_only_after_render {G : Type} (env : Env G) (st : State G) (w : work)
    (halive : st.panicked = false) :
    (match env.execute (buildData w.rowData) with
      | .error err =>
        (doWorkUnit env st w).generateCalls = st.generateCalls ∧
        (doWorkUnit env st w).client = st.client ∧
        (∀ row, 0 ≤ w.recordIndex → st.dataRows[w.recordIndex.toNat]? = some row →
          (doWorkUnit env st w).dataRows[w.recordIndex.toNat]? =
            some (row ++ ["ERROR: " ++ err]) ∧
          (doWorkUnit env st w).wg = st.wg.Done ∧
          (doWorkUnit env st w).panicked = false)
      | .ok prompt =>
        (doWorkUnit env st w).generateCalls = st.generateCalls ++ [prompt] ∧
        (doWorkUnit env st w).client = (env.generate st.client prompt).2) ∧
    (∀ units : List work, (processAll env st units).panicked = false →
      (processAll env st units).generateCalls =
        st.generateCalls ++
          units.filterMap (fun u => (env.execute (buildData u.rowData)).toOption) ∧
      (processAll env st units).generateCalls.length =
        st.generateCalls.length +
          units.countP (fun u => (env.execute (buildData u.rowData)).toBool)) := by
  constructor
  · have hc := doWorkUnit_calls env st w halive
    have hg := doWorkUnit_client env st w halive
    have hf := unitOutcome_field env st.client w.rowData
    rw [unitOutcome_calls] at hc
    rw [unitOutcome_client] at hg
    cases hexec : env.execute (buildData w.rowData) with
    | error err =>
      rw [hexec] at hc hg hf
      simp only at hc hg hf ⊢
      refine ⟨by simpa using hc, hg, ?_⟩
      intro row hidx hrow
      have hlt : w.recordIndex.toNat < st.dataRows.length := by
        by_contra hcon
        rw [List.getElem?_eq_none (not_lt.mp hcon)] at hrow
        simp at hrow
      rw [doWorkUnit_of_get env st w halive hidx hrow, hf]
      simp [hlt]
    | ok prompt =>
      rw [hexec] at hc hg
      exact ⟨hc, hg⟩
  · intro units h
    have := processAll_calls env units st h
    refine ⟨this, ?_⟩
    rw [this, List.length_append]
    congr 1
    clear this h
    induction units with
    | nil => rfl
    | cons u units ih =>
      rw [List.filterMap_cons, List.countP_cons]
      cases env.execute (buildData u.rowData) <;>
        simpa [Except.toOption, Except.toBool] using ih

theorem generate_only_after_render_witness :
    (doWorkUnit pickyEnv (State.dispatched [["a"], ["b", "c"]] ()) ⟨0, ["a"]⟩).generateCalls
      = [] ∧
    (doWorkUnit pickyEnv (State.dispatched [["a"], ["b", "c"]] ()) ⟨0, ["a"]⟩).dataRows[0]?
      = some ["a", "ERROR: no col2"] ∧
    (doWorkUnit pickyEnv (State.dispatched [["a"], ["b", "c"]] ()) ⟨1, ["b", "c"]⟩).generateCalls
      = ["ask c"] ∧
    (processAll pickyEnv (State.dispatched [["a"], ["b", "c"]] ())
      [⟨1, ["b", "c"]⟩, ⟨0, ["a"]⟩]).generateCalls.length = 1 := by
  have h0 := generate_only_after_render pickyEnv (State.dispatched [["a"], ["b", "c"]] ())
    ⟨0, ["a"]⟩ rfl
  have h1 := generate_only_after_render pickyEnv (State.dispatched [["a"], ["b", "c"]] ())
    ⟨1, ["b", "c"]⟩ rfl
  have h00 : _ ∧ _ ∧ _ := h0.1
  have h10 : _ ∧ _ := h1.1
  exact ⟨h00.1, (h00.2.2 ["a"] (by decide) rfl).1, h10.1,
    (h0.2 [⟨1, ["b", "c"]⟩, ⟨0, ["a"]⟩] rfl).2⟩

/-! ## The producer loop -/

theorem toInt32_of_lt (k : Nat) (h : k < 2 ^ 31) : toInt32 (k : Int) = (k : Int) := by
  unfold toInt32
  have h1 : ((k : Int) + 2 ^ 31) % 2 ^ 32 = (k : Int) + 2 ^ 31 := by
    apply Int.emod_eq_of_lt <;> omega
  omega

theorem dispatchFrom_length : ∀ (rows : List (List String)) (i : Nat),
    (dispatchFrom i rows).length = rows.length
  | [], _ => rfl
  | _ :: rest, i => by simp [dispatchFrom, dispatchFrom_length rest (i + 1)]

theorem dispatchFrom_getElem? : ∀ (rows : List (List String)) (i k : Nat),
    (dispatchFrom i rows)[k]? =
      (rows[k]?).map (fun row => work.mk (toInt32 ((i + k : Nat) : Int)) row)
  | [], _, _ => by simp [dispatchFrom]
  | _ :: _, _, 0 => by simp [dispatchFrom]
  | _ :: rest, i, k + 1 => by
    simp only [dispatchFrom, List.getElem?_cons_succ]
    rw [dispatchFrom_getElem? rest (i + 1) k, show i + 1 + k = i + (k + 1) by omega]

theorem dispatch_length (rows : List (List String)) : (dispatch rows).length = rows.length :=
  dispatchFrom_length rows 0

theorem dispatch_getElem? (rows : List (List String)) (k : Nat) :
    (dispatch rows)[k]? =
      (rows[k]?).map (fun row => work.mk (toInt32 (k : Int)) row) := by
  unfold dispatch
  rw [dispatchFrom_getElem?, Nat.zero_add]

/-- Up to `2^31` rows the producer loop is exact: the `k`-th unit carries the index `k` and
the fields of row `k`. -/
theorem dispatch_exact (rows : List (List String)) (hM : rows.length ≤ 2 ^ 31) (k : Nat)
    (hk : k < rows.length) :
    (dispatch rows)[k]? = some { recordIndex := (k : Int), rowData := rows[k] } := by
  rw [dispatch_getElem?, List.getElem?_eq_getElem hk, Option.map_some',
    toInt32_of_lt k (by omega)]

/-- In the table of `2^31 + 1` rows the unit at position `2^31` carries the index `-2^31`,
which is not a position of the row store. -/
theorem hugeTable_wrapped_unit :
    (dispatch hugeTable)[2 ^ 31]? = some { recordIndex := -2147483648, rowData := ["x"] } ∧
    ¬ validIndex hugeTable.length (-2147483648) := by
  constructor
  · rw [dispatch_getElem?, hugeTable, List.getElem?_replicate, if_pos (by norm_num)]
    have : toInt32 ((2 ^ 31 : Nat) : Int) = -2147483648 := by decide
    rw [Option.map_some', this]
  · intro h
    exact absurd h.1 (by decide)

/-- C9 (dispatch), at the table of `2^31 + 1` rows.  The producer loop creates `2^31 + 1`
units, and the unit at position `2^31` carries the fields of its row but the index `-2^31`,
which is not `2^31` and is not a position of the row store. -/
theorem dispatch_index_wraps :
    (dispatch hugeTable).length = 2 ^ 31 + 1 ∧
    (dispatch hugeTable)[2 ^ 31]? = some { recordIndex := -2147483648, rowData := ["x"] } ∧
    (-2147483648 : Int) ≠ ((2 ^ 31 : Nat) : Int) ∧
    ¬ validIndex hugeTable.length (-2147483648) := by
  refine ⟨?_, hugeTable_wrapped_unit.1, by decide, hugeTable_wrapped_unit.2⟩
  rw [dispatch_length, hugeTable, List.length_replicate]

/-! ## Completeness -/

/-- A batch that contains a unit whose index is not a position of the row store ends in a
panic, in whatever order it is processed. -/
theorem processAll_of_invalid_mem {G : Type} (env : Env G) (units : List work) :
    ∀ st : State G, (∃ w ∈ units, ¬ validIndex st.dataRows.length w.recordIndex) →
      (processAll env st units).panicked = true := by
  induction units with
  | nil => intro st h; simp at h
  | cons u units ih =>
    intro st h
    rw [processAll_cons]
    cases hp : st.panicked with
    | true =>
      rw [doWorkUnit_panicked env st u hp, processAll_panicked env units st hp, hp]
    | false =>
      by_cases hu : validIndex st.dataRows.length u.recordIndex
      · apply ih
        obtain ⟨w, hw, hbad⟩ := h
        rcases List.mem_cons.mp hw with rfl | hw
        · exact absurd hu hbad
        · exact ⟨w, hw, by rwa [doWorkUnit_length]⟩
      · rw [processAll_panicked]
        all_goals rw [doWorkUnit_of_invalid env st u hp hu]

/-- A batch of units with valid, pairwise different indexes is survived; a row whose index
belongs to no unit is unchanged and a row whose index belongs to a unit has one more field. -/
theorem processAll_rows {G : Type} (env : Env G) (units : List work) :
    ∀ st : State G, st.panicked = false →
      (∀ w ∈ units, validIndex st.dataRows.length w.recordIndex) →
      (units.map (fun w => w.recordIndex.toNat)).Nodup →
      (processAll env st units).panicked = false ∧
      (∀ i, i ∉ units.map (fun w => w.recordIndex.toNat) →
        (processAll env st units).dataRows[i]? = st.dataRows[i]?) ∧
      (∀ i, i ∈ units.map (fun w => w.recordIndex.toNat) →
        ∃ w ∈ units, w.recordIndex.toNat = i ∧ ∃ g : G,
          (processAll env st units).dataRows[i]? =
            (st.dataRows[i]?).map (fun row => row ++ [(unitOutcome env g w.rowData).1])) := by
  induction units with
  | nil =>
    intro st h _ _
    exact ⟨h, fun _ _ => rfl, fun i hi => by simp at hi⟩
  | cons u units ih =>
    intro st halive hvalid hnodup
    have hu := hvalid u (List.mem_cons_self _ _)
    have hstep := doWorkUnit_of_get env st u halive hu.1 (List.getElem?_eq_getElem hu.2)
    rw [List.map_cons, List.nodup_cons] at hnodup
    have hlen := doWorkUnit_length env st u
    obtain ⟨h1, h2, h3⟩ := ih (doWorkUnit env st u) (by rw [hstep])
      (fun w hw => by rw [hlen]; exact hvalid w (List.mem_cons_of_mem _ hw)) hnodup.2
    rw [processAll_cons]
    refine ⟨h1, ?_, ?_⟩
    · intro i hi
      rw [List.map_cons, List.mem_cons, not_or] at hi
      rw [h2 i hi.2, hstep]
      exact List.getElem?_set_ne (Ne.symm hi.1)
    · intro i hi
      rw [List.map_cons, List.mem_cons] at hi
      by_cases hmem : i ∈ units.map (fun w => w.recordIndex.toNat)
      · obtain ⟨w, hw, hwi, g, hf⟩ := h3 i hmem
        have hne : i ≠ u.recordIndex.toNat := fun e => hnodup.1 (e ▸ hmem)
        refine ⟨w, List.mem_cons_of_mem _ hw, hwi, g, ?_⟩
        rw [hf, hstep]
        simp only
        rw [List.getElem?_set_ne (Ne.symm hne)]
      · rcases hi with rfl | hi
        · refine ⟨u, List.mem_cons_self _ _, rfl, st.client, ?_⟩
          rw [h2 _ hmem, hstep]
          simp [hu.2]
        · exact absurd hi hmem

theorem dispatch_eq_map (rows : List (List String)) (hM : rows.length ≤ 2 ^ 31) :
    (dispatch rows).map (fun w => w.recordIndex) =
      (List.range rows.length).map (fun k : Nat => (k : Int)) := by
  apply List.ext_getElem?
  intro k
  rw [List.getElem?_map, List.getElem?_map]
  by_cases hk : k < rows.length
  · rw [dispatch_exact rows hM k hk, List.getElem?_range hk]
    rfl
  · rw [List.getElem?_eq_none (by rw [dispatch_length]; omega),
      List.getElem?_eq_none (by rw [List.length_range]; omega)]
    rfl

/-- The units of a table of at most `2^31` rows, in any order: every index is a position of
the row store and the indexes are the positions `0 .. M-1`, each once. -/
theorem perm_dispatch_indexes (rows : List (List String)) (units : List work)
    (hM : rows.length ≤ 2 ^ 31) (hperm : units.Perm (dispatch rows)) :
    (∀ w ∈ units, validIndex rows.length w.recordIndex) ∧
    (units.map (fun w => w.recordIndex.toNat)).Perm (List.range rows.length) := by
  have hidx : (units.map (fun w => w.recordIndex)).Perm
      ((List.range rows.length).map (fun k : Nat => (k : Int))) := by
    rw [← dispatch_eq_map rows hM]
    exact hperm.map _
  constructor
  · intro w hw
    have : w.recordIndex ∈ (List.range rows.length).map (fun k : Nat => (k : Int)) :=
      hidx.subset (List.mem_map_of_mem _ hw)
    obtain ⟨k, hk, hkw⟩ := List.mem_map.mp this
    rw [List.mem_range] at hk
    rw [← hkw]
    exact ⟨by omega, by simpa using hk⟩
  · have := hidx.map Int.toNat
    simpa [List.map_map, Function.comp_def] using this

/-- Completeness for tables of at most `2^31` rows: in whatever order the dispatched units are
processed and whatever rendering and generation return, the process survives, the row store
keeps its `M` rows and each row is its input row followed by exactly one field. -/
theorem completeness_within_int32 {G : Type} (env : Env G) (g : G)
    (rows : List (List String)) (units : List work) (hM : rows.length ≤ 2 ^ 31)
    (hperm : units.Perm (dispatch rows)) :
    (processAll env (State.dispatched rows g) units).panicked = false ∧
    (processAll env (State.dispatched rows g) units).dataRows.length = rows.length ∧
    (∀ i (hi : i < rows.length), ∃ field,
      (processAll env (State.dispatched rows g) units).dataRows[i]? =
        some (rows[i] ++ [field])) ∧
    (∀ i (hi : i < rows.length), ∃ row,
      (processAll env (State.dispatched rows g) units).dataRows[i]? = some row ∧
      row.length = rows[i].length + 1) := by
  obtain ⟨hvalid, hnat⟩ := perm_dispatch_indexes rows units hM hperm
  obtain ⟨h1, _, h3⟩ := processAll_rows env units (State.dispatched rows g) rfl hvalid
    (hnat.nodup_iff.mpr (List.nodup_range _))
  have hfield : ∀ i (hi : i < rows.length), ∃ field,
      (processAll env (State.dispatched rows g) units).dataRows[i]? =
        some (rows[i] ++ [field]) := by
    intro i hi
    obtain ⟨w, _, _, g1, hf⟩ := h3 i (hnat.mem_iff.mpr (List.mem_range.mpr hi))
    refine ⟨(unitOutcome env g1 w.rowData).1, ?_⟩
    rw [hf]
    simp [State.dispatched, List.getElem?_eq_getElem hi]
  refine ⟨h1, processAll_length env units _, hfield, ?_⟩
  intro i hi
  obtain ⟨field, hf⟩ := hfield i hi
  exact ⟨_, hf, by simp⟩

theorem completeness_within_int32_witness :
    (processAll pickyEnv (State.dispatched [["a"], ["b", "c"]] ())
      [⟨1, ["b", "c"]⟩, ⟨0, ["a"]⟩]).dataRows.length = 2 ∧
    (∃ row, (processAll pickyEnv (State.dispatched [["a"], ["b", "c"]] ())
      [⟨1, ["b", "c"]⟩, ⟨0, ["a"]⟩]).dataRows[1]? = some row ∧ row.length = 2 + 1) := by
  have h := completeness_within_int32 pickyEnv () [["a"], ["b", "c"]]
    [⟨1, ["b", "c"]⟩, ⟨0, ["a"]⟩] (by simp) (List.Perm.swap _ _ _)
  exact ⟨h.2.1, h.2.2.2 1 (by decide)⟩

/-- C1 (completeness), at the table of `2^31 + 1` rows.  In whatever order the dispatched
units are processed and whatever rendering and generation return, the process panics on the
unit whose index wrapped to `-2^31`: no state is reached in which every row has its appended
field, and no table reaches the output stage. -/
theorem completeness_breaks_past_int32 {G : Type} (env : Env G) (g : G) (units : List work)
    (hperm : units.Perm (dispatch hugeTable)) :
    (processAll env (State.dispatched hugeTable g) units).panicked = true ∧
    (processAll env (State.dispatched hugeTable g) units).output = none := by
  have hmem : (⟨-2147483648, ["x"]⟩ : work) ∈ units :=
    hperm.symm.subset (List.getElem?_mem hugeTable_wrapped_unit.1)
  have hp := processAll_of_invalid_mem env units (State.dispatched hugeTable g)
    ⟨_, hmem, hugeTable_wrapped_unit.2⟩
  exact ⟨hp, by simp [State.output, hp]⟩

theorem completeness_breaks_past_int32_witness :
    (processAll pickyEnv (State.dispatched hugeTable ()) (dispatch hugeTable)).output = none :=
  (completeness_breaks_past_int32 pickyEnv () (dispatch hugeTable) (List.Perm.refl _)).2

/-! ## The order of processing -/

/-- With a deterministic stub and a table of at most `2^31` rows, any processing order ends
with the table in which each input row is followed by the field computed from that row. -/
theorem stub_final_rows (render : GoMap → Except String String)
    (gen : String → Except String String) (rows : List (List String)) (units : List work)
    (hM : rows.length ≤ 2 ^ 31) (hperm : units.Perm (dispatch rows)) :
    (processAll (stubEnv render gen) (State.dispatched rows ()) units).output =
      some (rows.map (fun row => row ++ [(unitOutcome (stubEnv render gen) () row).1])) := by
  obtain ⟨hvalid, hnat⟩ := perm_dispatch_indexes rows units hM hperm
  obtain ⟨h1, _, h3⟩ := processAll_rows (stubEnv render gen) units (State.dispatched rows ())
    rfl hvalid (hnat.nodup_iff.mpr (List.nodup_range _))
  rw [State.output, h1]
  simp only [Bool.false_eq_true, if_false, Option.some.injEq]
  apply List.ext_getElem?
  intro i
  by_cases hi : i < rows.length
  · obtain ⟨w, hw, hwi, g1, hf⟩ := h3 i (hnat.mem_iff.mpr (List.mem_range.mpr hi))
    obtain ⟨k, hk⟩ := List.mem_iff_getElem?.mp (hperm.subset hw)
    have hklt : k < rows.length := by
      by_contra hc
      rw [List.getElem?_eq_none (by rw [dispatch_length]; omega)] at hk
      simp at hk
    rw [dispatch_exact rows hM k hklt, Option.some.injEq] at hk
    have hki : k = i := by
      rw [← hwi, ← hk]
      simp
    subst hki
    rw [hf, ← hk]
    simp [State.dispatched, List.getElem?_eq_getElem hklt]
  · rw [List.getElem?_eq_none (by rw [processAll_length]; simpa [State.dispatched] using hi),
      List.getElem?_eq_none (by simpa using hi)]

/-- A table of more than `2^31` rows has a dispatched unit whose index is not a position. -/
theorem dispatch_invalid_mem (rows : List (List String)) (hM : 2 ^ 31 < rows.length) :
    ∃ w ∈ dispatch rows, ¬ validIndex rows.length w.recordIndex := by
  have hget := dispatch_getElem? rows (2 ^ 31)
  have h32 : toInt32 ((2 ^ 31 : Nat) : Int) = -2147483648 := by decide
  rw [List.getElem?_eq_getElem hM, Option.map_some', h32] at hget
  refine ⟨_, List.getElem?_mem hget, ?_⟩
  intro h
  have h0 : (0 : Int) ≤ -2147483648 := h.1
  exact absurd h0 (by decide)

theorem output_of_panicked {G : Type} (st : State G) (h : st.panicked = true) :
    st.output = none := by
  simp [State.output, h]

theorem doWorkUnit_panicked_of_invalid {G : Type} (env : Env G) (st : State G) (w : work)
    (h : ¬ validIndex st.dataRows.length w.recordIndex) :
    (doWorkUnit env st w).panicked = true := by
  cases hp : st.panicked with
  | true => rw [doWorkUnit_panicked env st w hp, hp]
  | false => rw [doWorkUnit_of_invalid env st w hp h]

theorem doWorkUnit_sticky {G : Type} (env : Env G) (st : State G) (w : work)
    (h : st.panicked = true) : (doWorkUnit env st w).panicked = true := by
  rw [doWorkUnit_panicked env st w h, h]

/-- With a client whose state is not changed by a call, the iterations for two units with
different indexes commute as far as the output is concerned. -/
theorem output_doWorkUnit_comm {G : Type} (env : Env G)
    (hdet : ∀ g prompt, (env.generate g prompt).2 = g)
    (st : State G) (w₁ w₂ : work) (hne : w₁.recordIndex ≠ w₂.recordIndex) :
    (doWorkUnit env (doWorkUnit env st w₁) w₂).output =
      (doWorkUnit env (doWorkUnit env st w₂) w₁).output := by
  have hclient : ∀ rowData, (unitOutcome env st.client rowData).2.1 = st.client := by
    intro rowData
    rw [unitOutcome_client]
    cases env.execute (buildData rowData) with
    | error _ => rfl
    | ok prompt => exact hdet _ _
  cases hp : st.panicked with
  | true => simp only [doWorkUnit_panicked env st _ hp]
  | false =>
    by_cases h1 : validIndex st.dataRows.length w₁.recordIndex
    · by_cases h2 : validIndex st.dataRows.length w₂.recordIndex
      · have hn : w₁.recordIndex.toNat ≠ w₂.recordIndex.toNat := by
          intro e
          apply hne
          have := h1.1
          have := h2.1
          omega
        have e1 := doWorkUnit_of_get env st w₁ hp h1.1 (List.getElem?_eq_getElem h1.2)
        have e2 := doWorkUnit_of_get env st w₂ hp h2.1 (List.getElem?_eq_getElem h2.2)
        have r12 : (doWorkUnit env st w₁).dataRows[w₂.recordIndex.toNat]? =
            some (st.dataRows.get ⟨w₂.recordIndex.toNat, h2.2⟩) := by
          rw [e1]
          simp only
          rw [List.getElem?_set_ne hn, List.getElem?_eq_getElem h2.2]
          rfl
        have r21 : (doWorkUnit env st w₂).dataRows[w₁.recordIndex.toNat]? =
            some (st.dataRows.get ⟨w₁.recordIndex.toNat, h1.2⟩) := by
          rw [e2]
          simp only
          rw [List.getElem?_set_ne hn.symm, List.getElem?_eq_getElem h1.2]
          rfl
        have e12 := doWorkUnit_of_get env (doWorkUnit env st w₁) w₂ (by rw [e1]) h2.1 r12
        have e21 := doWorkUnit_of_get env (doWorkUnit env st w₂) w₁ (by rw [e2]) h1.1 r21
        rw [e12, e21, e1, e2]
        simp only [State.output, Bool.false_eq_true, if_false, hclient, Option.some.injEq]
        exact List.set_comm _ _ _ hn
      · rw [output_of_panicked _ (doWorkUnit_panicked_of_invalid env _ w₂
            (by rwa [doWorkUnit_length])),
          output_of_panicked _ (doWorkUnit_sticky env _ w₁
            (doWorkUnit_panicked_of_invalid env st w₂ h2))]
    · rw [output_of_panicked _ (doWorkUnit_sticky env _ w₂
          (doWorkUnit_panicked_of_invalid env st w₁ h1)),
        output_of_panicked _ (doWorkUnit_panicked_of_invalid env _ w₁
          (by rwa [doWorkUnit_length]))]

/-- C6 (concurrency invariance).  With a deterministic rendering function and a deterministic
client stub, any two orders in which the dispatched units of a table are processed hand the
same table to the output stage, the same as processing in input order (one worker); and the
iterations of `doWork` for two units with different indexes commute. -/
theorem concurrency_invariance (render : GoMap → Except String String)
    (gen : String → Except String String) (rows : List (List String))
    (units₁ units₂ : List work) (h₁ : units₁.Perm (dispatch rows))
    (h₂ : units₂.Perm (dispatch rows)) :
    (processAll (stubEnv render gen) (State.dispatched rows ()) units₁).output =
      (processAll (stubEnv render gen) (State.dispatched rows ()) units₂).output ∧
    (processAll (stubEnv render gen) (State.dispatched rows ()) units₁).output =
      (processAll (stubEnv render gen) (State.dispatched rows ()) (dispatch rows)).output ∧
    (∀ (st : State Unit) (w₁ w₂ : work), w₁.recordIndex ≠ w₂.recordIndex →
      (doWorkUnit (stubEnv render gen) (doWorkUnit (stubEnv render gen) st w₁) w₂).output =
        (doWorkUnit (stubEnv render gen) (doWorkUnit (stubEnv render gen) st w₂) w₁).output) := by
  have key : ∀ units : List work, units.Perm (dispatch rows) →
      (processAll (stubEnv render gen) (State.dispatched rows ()) units).output =
        (processAll (stubEnv render gen) (State.dispatched rows ()) (dispatch rows)).output := by
    intro units hperm
    by_cases hM : rows.length ≤ 2 ^ 31
    · rw [stub_final_rows render gen rows units hM hperm,
        stub_final_rows render gen rows (dispatch rows) hM (List.Perm.refl _)]
    · obtain ⟨w, hw, hbad⟩ := dispatch_invalid_mem rows (by omega)
      rw [output_of_panicked _ (processAll_of_invalid_mem _ units _
            ⟨w, hperm.symm.subset hw, hbad⟩),
        output_of_panicked _ (processAll_of_invalid_mem _ (dispatch rows) _ ⟨w, hw, hbad⟩)]
  refine ⟨(key units₁ h₁).trans (key units₂ h₂).symm, key units₁ h₁, ?_⟩
  intro st w₁ w₂ hne
  exact output_doWorkUnit_comm (stubEnv render gen) (fun _ _ => rfl) st w₁ w₂ hne

theorem concurrency_invariance_witness :
    (processAll pickyEnv (State.dispatched [["a"], ["b", "c"], ["d", "e"]] ())
        [⟨2, ["d", "e"]⟩, ⟨0, ["a"]⟩, ⟨1, ["b", "c"]⟩]).output =
      some [["a", "ERROR: no col2"], ["b", "c", "re: ask c"], ["d", "e", "re: ask e"]] ∧
    (processAll pickyEnv (State.dispatched [["a"], ["b", "c"], ["d", "e"]] ())
        [⟨2, ["d", "e"]⟩, ⟨0, ["a"]⟩, ⟨1, ["b", "c"]⟩]).output =
      (processAll pickyEnv (State.dispatched [["a"], ["b", "c"], ["d", "e"]] ())
        [⟨1, ["b", "c"]⟩, ⟨2, ["d", "e"]⟩, ⟨0, ["a"]⟩]).output := by
  have h := concurrency_invariance
    (fun data =>
      match data.get? "col2" with
      | some v => Except.ok ("ask " ++ v)
      | none => Except.error "no col2")
    (fun prompt => Except.ok ("re: " ++ prompt))
    [["a"], ["b", "c"], ["d", "e"]]
    [⟨2, ["d", "e"]⟩, ⟨0, ["a"]⟩, ⟨1, ["b", "c"]⟩]
    [⟨1, ["b", "c"]⟩, ⟨2, ["d", "e"]⟩, ⟨0, ["a"]⟩] (by decide) (by decide)
  exact ⟨h.2.1.trans rfl, h.1⟩

/-! ## The wait group along a run -/

theorem doWorkUnit_wg {G : Type} (env : Env G) (st : State G) (w : work)
    (halive : st.panicked = false) (hvalid : validIndex st.dataRows.length w.recordIndex) :
    (doWorkUnit env st w).wg = st.wg.Done ∧ (doWorkUnit env st w).panicked = false := by
  rw [doWorkUnit_of_get env st w halive hvalid.1 (List.getElem?_eq_getElem hvalid.2)]
  exact ⟨rfl, rfl⟩

theorem doWorkUnit_wg_of_invalid {G : Type} (env : Env G) (st : State G) (w : work)
    (halive : st.panicked = false) (hvalid : ¬ validIndex st.dataRows.length w.recordIndex) :
    (doWorkUnit env st w).wg = st.wg ∧ (doWorkUnit env st w).panicked = true := by
  rw [doWorkUnit_of_invalid env st w halive hvalid]
  exact ⟨rfl, rfl⟩

theorem Sys.step_inv {G : Type} (env : Env G) (M : Nat) (s t : Sys G) (a : Action)
    (hstep : s.step env a = some t) (hinv : Sys.Inv M s) : Sys.Inv M t := by
  obtain ⟨hlen, hcnt, hadds, hnext, hdones⟩ := hinv
  cases a with
  | add =>
    simp only [Sys.step] at hstep
    split at hstep
    · rename_i hg
      obtain ⟨hp, ha, hlt⟩ := hg
      simp only [Option.some.injEq] at hstep
      subst hstep
      simp only [Sys.Inv, WaitGroup.Add1, ha, hp] at *
      refine ⟨hlen, ?_, ?_, ?_, ?_⟩
      all_goals simp_all
      all_goals omega
    · simp at hstep
  | send =>
    simp only [Sys.step] at hstep
    split at hstep
    · rename_i hg
      obtain ⟨hp, ha⟩ := hg
      split at hstep
      · simp only [Option.some.injEq] at hstep
        subst hstep
        simp only [Sys.Inv, ha, hp] at *
        refine ⟨hlen, hcnt, ?_, ?_, ?_⟩
        all_goals simp_all
        all_goals omega
      · simp at hstep
    · simp at hstep
  | finish n =>
    simp only [Sys.step] at hstep
    split at hstep
    · rename_i hp
      split at hstep
      · rename_i w hw
        simp only [Option.some.injEq] at hstep
        subst hstep
        have hn : n < s.chan.length := by
          by_contra hc
          rw [List.getElem?_eq_none (not_lt.mp hc)] at hw
          simp at hw
        have herase : (s.chan.eraseIdx n).length = s.chan.length - 1 :=
          List.length_eraseIdx_of_lt hn
        by_cases hv : validIndex s.shared.dataRows.length w.recordIndex
        · obtain ⟨hwg, hal⟩ := doWorkUnit_wg env s.shared w hp hv
          simp only [Sys.Inv, hwg, hal, WaitGroup.Done, doWorkUnit_length, herase, hp] at *
          refine ⟨hlen, ?_, hadds, hnext, ?_⟩
          · push_cast
            omega
          · simp at hdones ⊢
            omega
        · obtain ⟨hwg, hal⟩ := doWorkUnit_wg_of_invalid env s.shared w hp hv
          simp only [Sys.Inv, hwg, hal, doWorkUnit_length, herase, hp] at *
          refine ⟨hlen, hcnt, hadds, hnext, ?_⟩
          simp at hdones ⊢
          omega
      · simp at hstep
    · simp at hstep

theorem Sys.run_inv {G : Type} (env : Env G) (M : Nat) (actions : List Action) :
    ∀ s t : Sys G, Sys.run env s actions = some t → Sys.Inv M s → Sys.Inv M t := by
  induction actions with
  | nil =>
    intro s t h hinv
    simp only [Sys.run, Option.some.injEq] at h
    exact h ▸ hinv
  | cons a rest ih =>
    intro s t h hinv
    simp only [Sys.run] at h
    cases hs : s.step env a with
    | none => rw [hs] at h; simp at h
    | some u =>
      rw [hs] at h
      exact ih u t h (Sys.step_inv env M s u a hs hinv)

theorem Sys.init_inv {G : Type} (rows : List (List String)) (g : G) :
    Sys.Inv rows.length (Sys.init rows g) := by
  simp [Sys.Inv, Sys.init, State.init]

/-- The safety part of the counter property.  In every state that a run of the producer and
the workers on a table of `M` rows can reach, under every interleaving: the counter of the
wait group is not negative; it is the number of `Add(1)` calls minus the number of `Done()`
calls; `Add(1)` was called once for each unit sent plus once when the send of the current unit
is pending (so before that unit is enqueued), and at most `M` times; on a live process
`Done()` was called once for each unit no longer in flight; and in a state where all `M` units
are processed the counter is zero with `M` calls of each kind.  One iteration of `doWork` on a
unit with a valid index calls `Done()` exactly once whichever of its three paths is taken. -/
theorem counter_safety {G : Type} (env : Env G) (rows : List (List String)) (g : G)
    (actions : List Action) (s : Sys G)
    (hrun : Sys.run env (Sys.init rows g) actions = some s) :
    0 ≤ s.shared.wg.counter ∧
    s.shared.wg.counter = (s.shared.wg.adds : Int) - (s.shared.wg.dones : Int) ∧
    s.shared.wg.adds = s.next + (if s.added then 1 else 0) ∧
    s.shared.wg.adds ≤ rows.length ∧
    (s.shared.panicked = false → s.shared.wg.dones + s.chan.length = s.next) ∧
    (s.allProcessed →
      s.shared.wg.counter = 0 ∧ s.shared.wg.adds = rows.length ∧
      s.shared.wg.dones = rows.length) ∧
    (∀ (st : State G) (w : work), st.panicked = false →
      validIndex st.dataRows.length w.recordIndex →
      (match env.execute (buildData w.rowData) with
        | .error _ => (doWorkUnit env st w).wg = st.wg.Done
        | .ok prompt =>
          match (env.generate st.client prompt).1 with
          | .error _ => (doWorkUnit env st w).wg = st.wg.Done
          | .ok _ => (doWorkUnit env st w).wg = st.wg.Done) ∧
      (doWorkUnit env st w).wg.counter = st.wg.counter - 1 ∧
      (doWorkUnit env st w).wg.dones = st.wg.dones + 1) := by
  obtain ⟨hlen, hcnt, hadds, hnext, hdones⟩ :=
    Sys.run_inv env rows.length actions _ s hrun (Sys.init_inv rows g)
  refine ⟨?_, hcnt, hadds, by omega, ?_, ?_, ?_⟩
  · rw [hcnt]
    have : s.shared.wg.dones ≤ s.shared.wg.adds := by omega
    omega
  · intro hp
    simpa [hp] using hdones
  · rintro ⟨h1, h2, h3, h4⟩
    rw [h2] at hadds hnext
    rw [h3, h4] at hdones
    simp only [Bool.false_eq_true, if_false, Nat.add_zero, List.length_nil] at hadds hdones
    rw [hcnt]
    omega
  · intro st w hp hv
    have hwg := (doWorkUnit_wg env st w hp hv).1
    refine ⟨?_, by rw [hwg]; rfl, by rw [hwg]; rfl⟩
    cases env.execute (buildData w.rowData) with
    | error _ => exact hwg
    | ok prompt =>
      simp only
      cases (env.generate st.client prompt).1 <;> exact hwg

theorem counter_safety_witness :
    ∃ s, Sys.run pickyEnv (Sys.init [["a"], ["b", "c"]] ())
        [Action.add, Action.send, Action.add, Action.send, Action.finish 1, Action.finish 0]
        = some s ∧
      s.allProcessed ∧ s.shared.wg.counter = 0 ∧ s.shared.wg.adds = 2 ∧ s.shared.wg.dones = 2 ∧
      s.shared.dataRows = [["a", "ERROR: no col2"], ["b", "c", "re: ask c"]] := by
  have hrun : Sys.run pickyEnv (Sys.init [["a"], ["b", "c"]] ())
      [Action.add, Action.send, Action.add, Action.send, Action.finish 1, Action.finish 0] =
      some ⟨⟨[["a", "ERROR: no col2"], ["b", "c", "re: ask c"]], ⟨0, 2, 2⟩, (), ["ask c"],
        false⟩, 2, false, []⟩ := rfl
  have h := counter_safety pickyEnv [["a"], ["b", "c"]] ()
    [Action.add, Action.send, Action.add, Action.send, Action.finish 1, Action.finish 0] _ hrun
  have hall := h.2.2.2.2.2.1 ⟨rfl, rfl, rfl, rfl⟩
  exact ⟨_, hrun, ⟨rfl, rfl, rfl, rfl⟩, hall.1, hall.2.1, hall.2.2, rfl⟩

theorem Sys.run_append {G : Type} (env : Env G) (as bs : List Action) :
    ∀ s : Sys G, Sys.run env s (as ++ bs) = (Sys.run env s as).bind (fun t => Sys.run env t bs) := by
  induction as with
  | nil => intro s; rfl
  | cons a as ih =>
    intro s
    simp only [List.cons_append, Sys.run]
    cases s.step env a with
    | none => rfl
    | some t => exact ih t

/-- One round of the sequential schedule from a quiet state: the unit of row `next` is
dispatched and finished. -/
theorem Sys.run_round {G : Type} (env : Env G) (s : Sys G)
    (hp : s.shared.panicked = false) (ha : s.added = false) (hc : s.chan = [])
    (hlt : s.next < s.shared.dataRows.length) (h31 : s.next < 2 ^ 31) :
    ∃ t, Sys.run env s [Action.add, Action.send, Action.finish 0] = some t ∧
      t.next = s.next + 1 ∧ t.added = false ∧ t.chan = [] ∧ t.shared.panicked = false ∧
      t.shared.dataRows.length = s.shared.dataRows.length := by
  have hv : validIndex s.shared.dataRows.length (toInt32 (s.next : Int)) := by
    rw [toInt32_of_lt _ h31]
    exact ⟨by omega, by simpa using hlt⟩
  have hw := doWorkUnit_wg env { s.shared with wg := s.shared.wg.Add1 }
    ⟨toInt32 (s.next : Int), s.shared.dataRows.get ⟨s.next, hlt⟩⟩ hp hv
  refine ⟨{ shared := doWorkUnit env { s.shared with wg := s.shared.wg.Add1 }
              ⟨toInt32 (s.next : Int), s.shared.dataRows.get ⟨s.next, hlt⟩⟩,
            next := s.next + 1, added := false, chan := [] }, ?_,
    rfl, rfl, rfl, hw.2, doWorkUnit_length _ _ _⟩
  simp [Sys.run, Sys.step, hp, ha, hc, hlt, List.getElem?_eq_getElem]

theorem Sys.run_sequential {G : Type} (env : Env G) (rows : List (List String)) (g : G)
    (hM : rows.length ≤ 2 ^ 31) :
    ∀ k, k ≤ rows.length →
      ∃ s, Sys.run env (Sys.init rows g) (sequentialSchedule k) = some s ∧
        s.next = k ∧ s.added = false ∧ s.chan = [] ∧ s.shared.panicked = false ∧
        s.shared.dataRows.length = rows.length := by
  intro k
  induction k with
  | zero => intro _; exact ⟨_, rfl, rfl, rfl, rfl, rfl, rfl⟩
  | succ k ih =>
    intro hk
    obtain ⟨s, hrun, hn, ha, hc, hp, hl⟩ := ih (by omega)
    obtain ⟨t, htrun, htn, hta, htc, htp, htl⟩ :=
      Sys.run_round env s hp ha hc (by omega) (by omega)
    refine ⟨t, ?_, by omega, hta, htc, htp, by omega⟩
    rw [sequentialSchedule, Sys.run_append, hrun]
    exact htrun

/-- For a table of at most `2^31` rows there is a run in which all units are processed: the
schedule of one worker that keeps up with the producer. -/
theorem sequential_run_completes {G : Type} (env : Env G) (rows : List (List String)) (g : G)
    (hM : rows.length ≤ 2 ^ 31) :
    ∃ s, Sys.run env (Sys.init rows g) (sequentialSchedule rows.length) = some s ∧
      s.allProcessed := by
  obtain ⟨s, hrun, hn, ha, hc, hp, hl⟩ := Sys.run_sequential env rows g hM rows.length le_rfl
  exact ⟨s, hrun, by rw [hn, hl], ha, hc, hp⟩

theorem hugeTable_length : hugeTable.length = 2 ^ 31 + 1 := by
  rw [hugeTable, List.length_replicate]

/-- Past `2^31` rows: on a live process, once the producer has sent the unit of row `2^31`,
a unit whose index is not a position of the row store is in flight.  One step keeps this. -/
theorem Sys.step_wrapped {G : Type} (env : Env G) (M : Nat) (s t : Sys G) (a : Action)
    (hstep : s.step env a = some t) (hlen : s.shared.dataRows.length = M)
    (hJ : s.shared.panicked = false → 2 ^ 31 < s.next →
      ∃ w ∈ s.chan, ¬ validIndex M w.recordIndex) :
    t.shared.panicked = false → 2 ^ 31 < t.next →
      ∃ w ∈ t.chan, ¬ validIndex M w.recordIndex := by
  cases a with
  | add =>
    simp only [Sys.step] at hstep
    split at hstep
    · simp only [Option.some.injEq] at hstep
      subst hstep
      exact hJ
    · simp at hstep
  | send =>
    simp only [Sys.step] at hstep
    split at hstep
    · rename_i hg
      split at hstep
      · simp only [Option.some.injEq] at hstep
        subst hstep
        intro _ hnext
        simp only at hnext ⊢
        by_cases hn : 2 ^ 31 < s.next
        · obtain ⟨w, hw, hbad⟩ := hJ hg.1 hn
          exact ⟨w, List.mem_append_left _ hw, hbad⟩
        · have hs : s.next = 2 ^ 31 := by omega
          refine ⟨_, List.mem_append_right _ (List.mem_singleton_self _), ?_⟩
          have h32 : toInt32 ((2 ^ 31 : Nat) : Int) = -2147483648 := by decide
          simp only [hs, h32]
          intro h
          have h0 : (0 : Int) ≤ -2147483648 := h.1
          exact absurd h0 (by decide)
      · simp at hstep
    · simp at hstep
  | finish n =>
    simp only [Sys.step] at hstep
    split at hstep
    · rename_i hp
      split at hstep
      · rename_i w hw
        simp only [Option.some.injEq] at hstep
        subst hstep
        intro halive hnext
        simp only at halive hnext ⊢
        by_cases hv : validIndex s.shared.dataRows.length w.recordIndex
        · obtain ⟨b, hb, hbad⟩ := hJ hp hnext
          refine ⟨b, ?_, hbad⟩
          obtain ⟨i, hi⟩ := List.mem_iff_getElem?.mp hb
          refine List.mem_eraseIdx_iff_getElem?.mpr ⟨i, ?_, hi⟩
          intro hin
          rw [hin, hw, Option.some.injEq] at hi
          rw [hlen, hi] at hv
          exact hbad hv
        · rw [(doWorkUnit_wg_of_invalid env s.shared w hp hv).2] at halive
          exact absurd halive (by decide)
      · simp at hstep
    · simp at hstep

theorem Sys.run_wrapped {G : Type} (env : Env G) (M : Nat) (actions : List Action) :
    ∀ s t : Sys G, Sys.run env s actions = some t → Sys.Inv M s →
      (s.shared.panicked = false → 2 ^ 31 < s.next →
        ∃ w ∈ s.chan, ¬ validIndex M w.recordIndex) →
      (t.shared.panicked = false → 2 ^ 31 < t.next →
        ∃ w ∈ t.chan, ¬ validIndex M w.recordIndex) := by
  induction actions with
  | nil =>
    intro s t h _ hJ
    simp only [Sys.run, Option.some.injEq] at h
    exact h ▸ hJ
  | cons a rest ih =>
    intro s t h hinv hJ
    simp only [Sys.run] at h
    cases hs : s.step env a with
    | none => rw [hs] at h; simp at h
    | some u =>
      rw [hs] at h
      exact ih u t h (Sys.step_inv env M s u a hs hinv)
        (Sys.step_wrapped env M s u a hs hinv.1 hJ)

/-- C5 (counter safety), at the table of `2^31 + 1` rows.  Under every interleaving, no state
is reached in which all units are processed, and once the producer has called `Add(1)` for
every row and sent every unit the counter of the wait group is positive: it never returns
to zero.  The unit of row `2^31` carries the index `-2^31`; the iteration of `doWork` for it
panics at the row store and never calls `Done()`, so this unit has its `Add(1)` and no
`Done()`. -/
theorem counter_unbalanced_past_int32 {G : Type} (env : Env G) (g : G)
    (actions : List Action) (s : Sys G)
    (hrun : Sys.run env (Sys.init hugeTable g) actions = some s) :
    ¬ s.allProcessed ∧
    (s.next = hugeTable.length → s.added = false →
      0 < s.shared.wg.counter ∧ s.shared.wg.adds = hugeTable.length ∧
      s.shared.wg.dones < hugeTable.length) ∧
    (∀ st : State G, st.panicked = false → st.dataRows.length = hugeTable.length →
      (doWorkUnit env st ⟨-2147483648, ["x"]⟩).wg = st.wg ∧
      (doWorkUnit env st ⟨-2147483648, ["x"]⟩).panicked = true) := by
  have hinv := Sys.run_inv env hugeTable.length actions _ s hrun (Sys.init_inv hugeTable g)
  have hJ := Sys.run_wrapped env hugeTable.length actions _ s hrun (Sys.init_inv hugeTable g)
    (fun _ h => absurd h (by simp [Sys.init]))
  obtain ⟨hlen, hcnt, hadds, hnext, hdones⟩ := hinv
  have hM := hugeTable_length
  refine ⟨?_, ?_, ?_⟩
  · rintro ⟨h1, _, h3, h4⟩
    obtain ⟨w, hw, _⟩ := hJ h4 (by omega)
    rw [h3] at hw
    simp at hw
  · intro h1 h2
    rw [h2] at hadds
    simp only [Bool.false_eq_true, if_false, Nat.add_zero] at hadds
    have hpos : 0 < s.chan.length + (if s.shared.panicked then 1 else 0) := by
      cases hp : s.shared.panicked with
      | true => simp
      | false =>
        obtain ⟨w, hw, _⟩ := hJ hp (by omega)
        have := List.length_pos_of_mem hw
        simp only [Bool.false_eq_true, if_false]
        omega
    refine ⟨?_, by omega, by omega⟩
    rw [hcnt]
    omega
  · intro st hp hl
    exact doWorkUnit_wg_of_invalid env st _ hp
      (by rw [hl]; exact hugeTable_wrapped_unit.2)

theorem counter_unbalanced_past_int32_witness :
    ¬ (Sys.init hugeTable ()).allProcessed ∧
    (doWorkUnit pickyEnv (State.dispatched hugeTable ()) ⟨-2147483648, ["x"]⟩).panicked = true :=
  have h := counter_unbalanced_past_int32 pickyEnv () [] (Sys.init hugeTable ()) rfl
  ⟨h.1, (h.2.2 (State.dispatched hugeTable ()) rfl rfl).2⟩

/-! ## Responses of the service -/

/-- When the response has a first candidate with a content that has a first part, `Generate`
returns the text of that part; when the service call fails, it returns the error. -/
theorem generate_on_wellformed (generateContent : String → Except String GenerateContentResponse)
    (prompt : String) :
    (∀ err, generateContent prompt = .error err →
      VertexLLM.Generate generateContent prompt = some (.error err)) ∧
    (∀ part parts candidates, generateContent prompt =
        .ok ⟨some ⟨some ⟨some part :: parts⟩⟩ :: candidates⟩ →
      VertexLLM.Generate generateContent prompt = some (.ok part.Text)) := by
  constructor
  · intro err h
    simp [VertexLLM.Generate, h]
  · intro part parts candidates h
    simp [VertexLLM.Generate, h]

/-- C8 (error containment at the generation client), at the failing inputs.  When the service
answers without an error and with an empty candidate list, `Generate` returns neither a text
nor an error: the index expression `resp.Candidates[0]` panics.  The same happens when the
first candidate has a content without parts, or no content.  In `doWork` the unit whose
prompt gets such an answer ends the process: no field is appended to its row, not an error
marker either, and no table reaches the output stage. -/
theorem generate_panics_on_empty_candidates (prompt : String) :
    VertexLLM.Generate (fun _ => .ok ⟨[]⟩) prompt = none ∧
    VertexLLM.Generate (fun _ => .ok ⟨[some ⟨some ⟨[]⟩⟩]⟩) prompt = none ∧
    VertexLLM.Generate (fun _ => .ok ⟨[some ⟨none⟩]⟩) prompt = none ∧
    (∀ outcome : Except String String,
      VertexLLM.Generate (fun _ => .ok ⟨[]⟩) prompt ≠ some outcome) ∧
    (∀ (execute : GoMap → Except String String) (st : State Unit) (w : work),
      st.panicked = false → execute (buildData w.rowData) = .ok prompt →
      (doWorkStep execute (vertexGenerate (fun _ => .ok ⟨[]⟩)) st w).panicked = true ∧
      (doWorkStep execute (vertexGenerate (fun _ => .ok ⟨[]⟩)) st w).dataRows = st.dataRows ∧
      (doWorkStep execute (vertexGenerate (fun _ => .ok ⟨[]⟩)) st w).output = none) ∧
    (doWorkStep (Execute MissingKey.default sayHiTemplate) (vertexGenerate (fun _ => .ok ⟨[]⟩))
      (State.dispatched [["Alice", "30"]] ()) aliceUnit).output = none := by
  refine ⟨rfl, rfl, rfl, ?_, ?_, rfl⟩
  · intro outcome h
    have : VertexLLM.Generate (fun _ => .ok ⟨[]⟩) prompt = none := rfl
    rw [this] at h
    exact Option.noConfusion h
  · intro execute st w halive hexec
    have hgen : vertexGenerate (fun _ => .ok ⟨[]⟩) st.client prompt = (none, st.client) := rfl
    have hstep : doWorkStep execute (vertexGenerate (fun _ => .ok ⟨[]⟩)) st w =
        { st with generateCalls := st.generateCalls ++ [prompt], panicked := true } := by
      simp only [doWorkStep, halive, Bool.false_eq_true, if_false, hexec, hgen]
    rw [hstep]
    exact ⟨rfl, rfl, rfl⟩

/-! ## Rendering with an absent binding -/

/-- A template of literal text and field actions renders under the default option. -/
theorem execNodes_plain_ok (data : GoMap) : ∀ (tmpl : List Node) (out : String),
    tmpl.all Node.isPlain = true →
    ∃ prompt, execNodes MissingKey.default data out tmpl = .ok prompt
  | [], out, _ => ⟨out, rfl⟩
  | .text s :: rest, out, h => by
    obtain ⟨p, hp⟩ := execNodes_plain_ok data rest (out ++ s)
      (by simpa [Node.isPlain] using h)
    exact ⟨p, by rw [execNodes, hp]⟩
  | .field name :: rest, out, h => by
    have hrest : rest.all Node.isPlain = true := by simpa [Node.isPlain] using h
    cases hget : data.get? name with
    | none =>
      obtain ⟨p, hp⟩ := execNodes_plain_ok data rest (out ++ "<no value>") hrest
      exact ⟨p, by simp only [execNodes, evalField, hget, hp]⟩
    | some v =>
      obtain ⟨p, hp⟩ := execNodes_plain_ok data rest (out ++ v) hrest
      exact ⟨p, by simp only [execNodes, evalField, hget, hp]⟩
  | .action run :: rest, out, h => by
    simp [Node.isPlain] at h

/-- Under the default option a field action on an absent key runs like the literal text
`<no value>`, wherever it stands in the template. -/
theorem execNodes_absent_field (data : GoMap) (name : String)
    (hget : data.get? name = none) (after : List Node) :
    ∀ (before : List Node) (out : String),
      execNodes MissingKey.default data out (before ++ Node.field name :: after) =
        execNodes MissingKey.default data out (before ++ Node.text "<no value>" :: after)
  | [], out => by
    simp only [List.nil_append, execNodes, evalField, hget]
  | .text s :: before, out => by
    simp only [List.cons_append, execNodes]
    exact execNodes_absent_field data name hget after before (out ++ s)
  | .field other :: before, out => by
    simp only [List.cons_append, execNodes]
    cases evalField MissingKey.default data other with
    | error err => rfl
    | ok v => exact execNodes_absent_field data name hget after before (out ++ v)
  | .action run :: before, out => by
    simp only [List.cons_append, execNodes]
    cases run data with
    | error err => rfl
    | ok v => exact execNodes_absent_field data name hget after before (out ++ v)

/-- C10, at the template `"Hello {{.col3}}"` and the row `["a","b"]`: the template refers to
`col3`, the binding map has no such key, and rendering succeeds with `<no value>` in the
place of the reference; the row receives the response of the client to that prompt, not an
error marker. -/
theorem missing_binding_counterexample :
    Node.field "col3" ∈ [Node.text "Hello ", Node.field "col3"] ∧
    (buildData ["a", "b"]).get? "col3" = none ∧
    Execute MissingKey.default [Node.text "Hello ", Node.field "col3"] (buildData ["a", "b"]) =
      .ok "Hello <no value>" ∧
    (doWorkUnit
        (templateEnv [Node.text "Hello ", Node.field "col3"]
          (fun (_ : Unit) prompt => (Except.ok ("re: " ++ prompt), ())))
        (State.dispatched [["a", "b"]] ()) ⟨0, ["a", "b"]⟩).dataRows =
      [["a", "b", "re: Hello <no value>"]] := by
  refine ⟨by simp, rfl, rfl, rfl⟩

/-- C10 as amended (rendering with an absent binding).  Let `colK` be a variable with `K`
greater than the number of fields of the row.  The key is absent from the binding map, and
under the default option, which is how `main` parses the template, the reference `{{.colK}}`
does not stop the execution: it prints `<no value>`, so that a template with the reference at
any place renders exactly as the template with the literal text `<no value>` at that place
(it fails only where another action of it fails).  A template of literal text and field
actions always renders, and the row then receives the outcome of the generation for the
rendered prompt.  Only under `missingkey=error`, which `main` does not set, does the reference
make rendering fail. -/
theorem missing_binding_renders_no_value (tmpl : List Node) (rowData : List String) (K : Nat)
    (hK : rowData.length < K) :
    (buildData rowData).get? ("col" ++ toString K) = none ∧
    evalField MissingKey.default (buildData rowData) ("col" ++ toString K) =
      .ok "<no value>" ∧
    (∀ before after : List Node,
      Execute MissingKey.default (before ++ Node.field ("col" ++ toString K) :: after)
          (buildData rowData) =
        Execute MissingKey.default (before ++ Node.text "<no value>" :: after)
          (buildData rowData)) ∧
    (∃ err, Execute MissingKey.error [Node.field ("col" ++ toString K)] (buildData rowData) =
      .error err) ∧
    (tmpl.all Node.isPlain = true →
      ∃ prompt, Execute MissingKey.default tmpl (buildData rowData) = .ok prompt ∧
        ∀ (G : Type) (generate : G → String → Except String String × G) (st : State G)
          (idx : Int) (row : List String),
          st.panicked = false → 0 ≤ idx → st.dataRows[idx.toNat]? = some row →
          (doWorkUnit (templateEnv tmpl generate) st ⟨idx, rowData⟩).dataRows[idx.toNat]? =
            some (row ++ [match (generate st.client prompt).1 with
                          | .error err => "ERROR: " ++ err
                          | .ok text => text])) := by
  have hnone : (buildData rowData).get? ("col" ++ toString K) = none := by
    have hkey : "col" ++ toString K = colKey (K - 1) := by
      unfold colKey
      rw [Nat.sub_add_cancel (by omega)]
    rw [hkey, buildData_get?_colKey, List.getElem?_eq_none (by omega)]
  refine ⟨hnone, by simp only [evalField, hnone], ?_, ?_, ?_⟩
  · intro before after
    exact execNodes_absent_field _ _ hnone after before ""
  · refine ⟨"map has no entry for key " ++ ("col" ++ toString K).quote, ?_⟩
    simp only [Execute, execNodes, evalField, hnone]
  intro hplain
  obtain ⟨prompt, hprompt⟩ := execNodes_plain_ok (buildData rowData) tmpl "" hplain
  refine ⟨prompt, hprompt, ?_⟩
  intro G generate st idx row halive hidx hrow
  have hlt : idx.toNat < st.dataRows.length := by
    by_contra hc
    rw [List.getElem?_eq_none (not_lt.mp hc)] at hrow
    simp at hrow
  have hexec : (templateEnv tmpl generate).execute (buildData rowData) = .ok prompt := hprompt
  rw [doWorkUnit_of_get (templateEnv tmpl generate) st ⟨idx, rowData⟩ halive hidx hrow,
    unitOutcome_field]
  simp only [hexec]
  simp [hlt, templateEnv]

theorem missing_binding_renders_no_value_witness :
    (buildData ["a", "b"]).get? "col3" = none ∧
    Execute MissingKey.default [Node.text "Hello ", Node.field "col3"] (buildData ["a", "b"]) =
      Execute MissingKey.default [Node.text "Hello ", Node.text "<no value>"]
        (buildData ["a", "b"]) ∧
    ∃ prompt,
      Execute MissingKey.default [Node.text "Hello ", Node.field "col3"] (buildData ["a", "b"]) =
        .ok prompt :=
  have h := missing_binding_renders_no_value [Node.text "Hello ", Node.field "col3"]
    ["a", "b"] 3 (by decide)
  ⟨h.1, h.2.2.1 [Node.text "Hello "] [],
    (h.2.2.2.2 rfl).elim (fun prompt hp => ⟨prompt, hp.1⟩)⟩


end Metamorph
